import Mathlib

/-!
# TrailTemps — verification of the point-identity codec, migration engine,
# normals aggregator and trip-extremes evaluator

Shallow embedding of the TrailTemps JavaScript sources:

* `scripts/migrate-ids-at-main.js` (Identity Codec + Migration Engine)
* `scripts/normalize-points-mile-only.js`
* `scripts/migrate-historical-ids-mixed.js`
* `scripts/generate-missing-normals-at.js` (Normals Aggregator)
* deprecated `build_planning_normals.js` (`fetchWithRetry`)
* `js/app.js` (nearest-point lookup, duration extremes)

Modelling conventions:

* JavaScript numbers are modelled exactly: values read from JSON stores are
  finite, so store fields use `ℚ`; where the code explicitly tests
  `Number.isFinite`, the value is modelled as a `JSNum` which can also be
  `NaN` or an infinity.  `Math.round` on an exact value is Mathlib's
  `round` (`⌊x + 1/2⌋`), which is JavaScript's round-half-up.
* A JS field that may be absent is an `Option`; `none` models an absent
  (`undefined`) field.
* `throw` is `Except.error`; a script `main` that mutates files is a
  function from a `Disk` state to `Except String Unit × Disk`, where each
  `fs` write is a state update placed exactly where the source performs it,
  so state reached before a throw is kept (files are not rolled back by the
  runtime).
* A JS `Map` populated by successive `set` calls is the list of `set`
  calls in order; `get` returns the value of the last `set` for the key.
-/

/-! ## Decimal digit strings (JS `String(n)` and `String.prototype.padStart`) -/

/-- Decimal digits of `n`, least significant first. -/
def natDigits (n : ℕ) : List ℕ :=
  if n = 0 then [] else n % 10 :: natDigits (n / 10)
termination_by n
decreasing_by exact Nat.div_lt_self (Nat.pos_of_ne_zero (by assumption)) (by norm_num)

/-- The decimal character list of a natural number, most significant digit
first — the JS `String(n)` for a non-negative integer `n`. -/
def natToChars (n : ℕ) : List Char :=
  if n = 0 then ['0'] else ((natDigits n).map Nat.digitChar).reverse

/-- JS `String(n)` for a non-negative integer. -/
def natToString (n : ℕ) : String :=
  ⟨natToChars n⟩

/-- JS `String(i)` for an integer (a leading `-` for negative values). -/
def intToString (i : ℤ) : String :=
  if i < 0 then "-" ++ natToString i.natAbs else natToString i.toNat

/-- JS `s.padStart(w, c)`: left-pad `s` with `c` up to length `w`
(returns `s` unchanged when it is already at least that long). -/
def padStart (s : String) (w : ℕ) (c : Char) : String :=
  ⟨List.replicate (w - s.length) c ++ s.data⟩

/-- Value of a most-significant-first decimal character list (inverse of the
rendering used by the codec; proof device, not part of the source). -/
def parseNat (l : List Char) : ℕ :=
  l.foldl (fun a c => 10 * a + (c.toNat - 48)) 0

/-- Value of a least-significant-first digit list. -/
def digitsVal (L : List ℕ) : ℕ :=
  L.foldr (fun d a => d + 10 * a) 0

/-! ## JS number values where `Number.isFinite` is tested -/

/-- A JavaScript number: a finite (exact) value, `NaN`, or an infinity. -/
inductive JSNum where
  | num : ℚ → JSNum
  | nan : JSNum
  | posInf : JSNum
  | negInf : JSNum
deriving DecidableEq

/-- JS `Number.isFinite`. -/
def JSNum.isFinite : JSNum → Bool
  | .num _ => true
  | _ => false

/-- How JS renders a non-finite number inside a template literal. -/
def JSNum.render : JSNum → String
  | .num _ => "number"
  | .nan => "NaN"
  | .posInf => "Infinity"
  | .negInf => "-Infinity"

/-! ## Identity Codec (`migrate-ids-at-main.js`) -/

/-- CONFIG `TRAIL_CODE`. -/
def TRAIL_CODE : String := "at"

/-- CONFIG `ALIGNMENT`. -/
def ALIGNMENT : String := "main"

/-- CONFIG `SCALE` (thousandths of a mile). -/
def SCALE : ℚ := 1000

/-- CONFIG `PAD_WIDTH`. -/
def PAD_WIDTH : ℕ := 7

/-- `mileToToken`: `Math.round(mile * SCALE)` rendered and zero-padded to
`PAD_WIDTH` digits; throws when the scaled mile is not finite. -/
def mileToToken : JSNum → Except String String
  | .num q => .ok (padStart (intToString (round (q * SCALE))) PAD_WIDTH '0')
  | m => .error ("Bad mile value: " ++ m.render)

/-- `toNewId`: the canonical id
`` `${TRAIL_CODE}-${ALIGNMENT}-mi${mileToToken(mile)}` ``. -/
def toNewId (m : JSNum) : Except String String :=
  (mileToToken m).map (fun t => TRAIL_CODE ++ "-" ++ ALIGNMENT ++ "-mi" ++ t)

/-! ## Store records (`points.json` / `historical_weather.json`)

JSON numeric fields are always finite, so they are modelled as `ℚ`; `none`
models an absent field. -/

/-- A Point Store record; `migrate-ids-at-main.js` reads `id`, `legacy_id`,
`mile`, `mile_est` and the aggregator additionally reads `lat`/`lon` (the
object spread used by the migration carries every field along). -/
structure MPoint where
  id : String
  legacy_id : Option String := none
  mile : Option ℚ := none
  mile_est : Option ℚ := none
  lat : Option ℚ := none
  lon : Option ℚ := none
deriving DecidableEq

/-- A Normals Store record: an id, an optional legacy id, and the 365-slot
`hi`/`lo` profiles (a slot is `none` when no observation contributed). -/
structure NRec where
  id : String
  legacy_id : Option String := none
  hi : List (Option ℚ) := []
  lo : List (Option ℚ) := []
deriving DecidableEq

/-- `mileFromPoint` (migrate-ids-at-main.js): prefer `mile`, fall back to
`mile_est`, throw when neither yields a finite number. -/
def mileFromPoint (p : MPoint) : Except String ℚ :=
  match p.mile with
  | some q => Except.ok q
  | none =>
    match p.mile_est with
    | some q => Except.ok q
    | none => Except.error ("Point id=" ++ p.id ++ " is missing numeric mile/mile_est")

/-- `normalizePoint` (normalize-points-mile-only.js): resolve the authoritative
mile the same way, store it in `mile` and drop `mile_est`. -/
def normalizePoint (pt : MPoint) : Except String MPoint :=
  match pt.mile with
  | some q => Except.ok { pt with mile := some q, mile_est := none }
  | none =>
    match pt.mile_est with
    | some q => Except.ok { pt with mile := some q, mile_est := none }
    | none => Except.error ("Point id=" ++ pt.id ++ " has no valid mile or mile_est")

/-! ## Migration Engine (`migrate-ids-at-main.js`) -/

/-- Effect-free core of one `points.map(...)` step: resolve the mile, compute
the canonical id, return the rewritten point together with the
`legacyToNew.set(legacyId, newId)` entry recorded for it. -/
def migratePoint (p : MPoint) : Except String (MPoint × (String × String)) :=
  match mileFromPoint p with
  | Except.error e => Except.error e
  | Except.ok mile =>
    match toNewId (JSNum.num mile) with
    | Except.error e => Except.error e
    | Except.ok newId =>
      Except.ok ({ p with legacy_id := some (p.legacy_id.getD p.id), id := newId },
        (p.id, newId))

/-- `Array.prototype.map` over a callback that can throw: stops at the first
error. -/
def mapExcept {α β : Type} (f : α → Except String β) : List α → Except String (List β)
  | [] => Except.ok []
  | a :: l =>
    match f a with
    | Except.error e => Except.error e
    | Except.ok b =>
      match mapExcept f l with
      | Except.error e => Except.error e
      | Except.ok bs => Except.ok (b :: bs)

/-- `ensureUniqueIds` inner loop: walk the ids with the set of ids seen so
far, throwing on the first repeat. -/
def ensureUniqueIdsAux (label : String) (seen : List String) :
    List String → Except String Unit
  | [] => Except.ok ()
  | i :: rest =>
    if i ∈ seen then Except.error ("Duplicate " ++ label ++ " id detected: " ++ i)
    else ensureUniqueIdsAux label (i :: seen) rest

/-- `ensureUniqueIds(ids, label)`. -/
def ensureUniqueIds (ids : List String) (label : String) : Except String Unit :=
  ensureUniqueIdsAux label [] ids

/-- A JS `Map` as its list of `set` calls in order; `get` returns the value
of the last `set` whose key matches. -/
def jsMapGet {β : Type} (m : List (String × β)) (k : String) : Option β :=
  m.foldl (fun acc e => if e.1 = k then some e.2 else acc) none

/-- One `normalsArr.map(...)` step: look the record id up in the
legacy-to-new mapping, throw when unresolved, otherwise rewrite the id and
seed `legacy_id`. -/
def migrateNormal (legacyToNew : List (String × String)) (rec : NRec) :
    Except String NRec :=
  match jsMapGet legacyToNew rec.id with
  | none => Except.error ("Normals id=" ++ rec.id ++ " has no matching point in points.json")
  | some newId =>
    Except.ok { rec with legacy_id := some (rec.legacy_id.getD rec.id), id := newId }

/-- The parsed root of `historical_weather.json`: a bare array, an object
with a `points` array (its `meta` is advisory and not modelled), or any
other shape (rejected by `getNormalsArray`). -/
inductive NormalsRoot where
  | rootArray : List NRec → NormalsRoot
  | pointsObj : List NRec → NormalsRoot
  | malformed : NormalsRoot
deriving DecidableEq

/-- `getNormalsArray`. -/
def getNormalsArray : NormalsRoot → Except String (List NRec)
  | .rootArray arr => Except.ok arr
  | .pointsObj arr => Except.ok arr
  | .malformed => Except.error "Unexpected historical_weather.json format."

/-- Rebuilding the normals root for write-back, preserving the input shape
(`mode === "rootArray"` keeps a bare array). -/
def rebuildNormalsRoot : NormalsRoot → List NRec → NormalsRoot
  | .rootArray _, arr => .rootArray arr
  | .pointsObj _, arr => .pointsObj arr
  | .malformed, _ => .malformed

/-- The files the migration scripts touch.  `backups` records the
`copyFileSync` snapshots. -/
structure Disk where
  pointsFile : List MPoint
  normalsFile : NormalsRoot
  backups : List (List MPoint × NormalsRoot) := []
deriving DecidableEq

/-- `main()` of migrate-ids-at-main.js over the disk state, each statement in
source order; a state reached before a throw is kept (a throw performs no
rollback), and every `fs` mutation (backup copies, the two `writeJson`
calls) happens after the last possible throw. -/
def mainPart001 (d : Disk) : Except String Unit × Disk :=
  match mapExcept migratePoint d.pointsFile with
  | Except.error e => (Except.error e, d)
  | Except.ok pairs =>
    let updatedPoints := pairs.map Prod.fst
    let legacyToNew := pairs.map Prod.snd
    match ensureUniqueIds (updatedPoints.map MPoint.id) "points" with
    | Except.error e => (Except.error e, d)
    | Except.ok _ =>
      match getNormalsArray d.normalsFile with
      | Except.error e => (Except.error e, d)
      | Except.ok normalsArr =>
        match mapExcept (migrateNormal legacyToNew) normalsArr with
        | Except.error e => (Except.error e, d)
        | Except.ok updatedNormalsArr =>
          match ensureUniqueIds (updatedNormalsArr.map NRec.id) "normals" with
          | Except.error e => (Except.error e, d)
          | Except.ok _ =>
            let d1 : Disk :=
              { d with backups := d.backups ++ [(d.pointsFile, d.normalsFile)] }
            let d2 : Disk := { d1 with pointsFile := updatedPoints }
            let d3 : Disk :=
              { d2 with normalsFile := rebuildNormalsRoot d.normalsFile updatedNormalsArr }
            (Except.ok (), d3)

/-! ## Mixed-id migration (`migrate-historical-ids-mixed.js`) -/

/-- `isNewId`. -/
def isNewId (id : String) : Bool :=
  id.startsWith "at-main-mi"

/-- The per-point loop that builds `legacyToNew`/`newToLegacy` from
`points.json`; throws at the first point with a null/absent (or falsy)
`legacy_id`. -/
def buildMixedMaps :
    List MPoint → Except String (List (String × String) × List (String × String))
  | [] => Except.ok ([], [])
  | p :: rest =>
    match p.legacy_id with
    | none => Except.error ("Point " ++ p.id ++ " missing legacy_id")
    | some legacyId =>
      if legacyId = "" then Except.error ("Point " ++ p.id ++ " missing legacy_id")
      else
        match buildMixedMaps rest with
        | Except.error e => Except.error e
        | Except.ok (l2n, n2l) =>
          Except.ok ((legacyId, p.id) :: l2n, (p.id, legacyId) :: n2l)

/-- One `histRoot.points.map(...)` step of the mixed script. -/
def mixedNormalRec (l2n n2l : List (String × String)) (rec : NRec) :
    Except String NRec :=
  if isNewId rec.id then
    match rec.legacy_id with
    | some _ => Except.ok rec
    | none =>
      match jsMapGet n2l rec.id with
      | some legacy =>
        if legacy = "" then Except.ok rec
        else Except.ok { rec with legacy_id := some legacy }
      | none => Except.ok rec
  else
    match jsMapGet l2n rec.id with
    | none =>
      Except.error ("Historical record legacy id=" ++ rec.id
        ++ " has no match in points.json legacy_id values.")
    | some mapped =>
      Except.ok { rec with legacy_id := some (rec.legacy_id.getD rec.id), id := mapped }

/-- The files the mixed script touches (it never writes `points.json`). -/
structure DiskMixed where
  pointsFile : List MPoint
  histFile : NormalsRoot
  backups : List NormalsRoot := []
deriving DecidableEq

/-- `main()` of migrate-historical-ids-mixed.js in source order: build the
two maps from the Point Store (throwing on a missing `legacy_id`), then read
the Normals Store (which must be `{ points: [...] }` here), rewrite its
records, and only then back up and overwrite the file. -/
def mixedMain (d : DiskMixed) : Except String Unit × DiskMixed :=
  match buildMixedMaps d.pointsFile with
  | Except.error e => (Except.error e, d)
  | Except.ok (l2n, n2l) =>
    match d.histFile with
    | NormalsRoot.pointsObj histPoints =>
      match mapExcept (mixedNormalRec l2n n2l) histPoints with
      | Except.error e => (Except.error e, d)
      | Except.ok updated =>
        let d1 : DiskMixed := { d with backups := d.backups ++ [d.histFile] }
        (Except.ok (), { d1 with histFile := NormalsRoot.pointsObj updated })
    | _ =>
      (Except.error "Unexpected historical_weather.json format. Expected points array.", d)

/-- Example stores used by concrete witnesses: one point at mile 10 with one
matching normals record keyed by its legacy id. -/
def egPoint : MPoint := { id := "GA_1", mile := some 10 }

/-- Example normals record for `egPoint`. -/
def egNormal : NRec := { id := "GA_1" }

/-- Example disk for the migration witnesses. -/
def egDisk : Disk :=
  { pointsFile := [egPoint], normalsFile := NormalsRoot.pointsObj [egNormal] }

/-- Example disk with two points whose miles collide at the codec resolution. -/
def egDupDisk : Disk :=
  { pointsFile := [{ id := "A", mile := some 10 }, { id := "B", mile := some 10 }],
    normalsFile := NormalsRoot.pointsObj [] }

/-- Example disk for the mixed script: a fully canonical Point Store whose
point never carried a legacy id. -/
def egMixedDisk : DiskMixed :=
  { pointsFile := [{ id := "at-main-mi0010000" }],
    histFile := NormalsRoot.pointsObj [] }

/-! ## Point Index: nearest-point lookup (`js/app.js getNearestPointByMile`)

The browser points carry `mile_est` (the field the lookup compares); the
query mile is an exact rational, so the `Number.isFinite(targetMile)` guard
of the source is always satisfied here. -/

/-- A point as `app.js` holds it (only the fields the lookup reads). -/
structure Pt where
  id : String
  mile_est : ℚ
deriving DecidableEq

/-- JS `arr[i]` for a possibly negative index. -/
def ptAt (arr : List Pt) (i : ℤ) : Option Pt :=
  if i < 0 then none else arr.get? i.toNat

/-- `Math.max(0, Math.min(arr.length - 1, i))`. -/
def clampIdx (n i : ℤ) : ℤ :=
  max 0 (min (n - 1) i)

/-- The `while (lo <= hi)` binary-search loop; the fuel is one more than the
initial interval length, which the loop can never exhaust.  `Sum.inl` is the
early `return arr[mid]` on an exact match; `Sum.inr` carries the final
`(lo, hi)`. -/
def nearLoop (arr : List Pt) (t : ℚ) : ℕ → ℤ → ℤ → Pt ⊕ (ℤ × ℤ)
  | 0, lo, hi => Sum.inr (lo, hi)
  | fuel + 1, lo, hi =>
    if lo ≤ hi then
      let mid := (lo + hi) / 2
      match ptAt arr mid with
      | none => Sum.inr (lo, hi)
      | some pm =>
        if pm.mile_est = t then Sum.inl pm
        else if pm.mile_est < t then nearLoop arr t fuel (mid + 1) hi
        else nearLoop arr t fuel lo (mid - 1)
    else Sum.inr (lo, hi)

/-- `getNearestPointByMile`. -/
def getNearestPointByMile (arr : List Pt) (t : ℚ) : Option Pt :=
  if arr.length = 0 then none
  else
    match nearLoop arr t (arr.length + 1) 0 ((arr.length : ℤ) - 1) with
    | Sum.inl p => some p
    | Sum.inr (lo, hi) =>
      match ptAt arr (clampIdx (arr.length : ℤ) hi),
          ptAt arr (clampIdx (arr.length : ℤ) lo) with
      | none, b => b
      | some a, none => some a
      | some a, some b =>
        if |a.mile_est - t| ≤ |b.mile_est - t| then some a else some b

/-! ## Normals Aggregator (`scripts/generate-missing-normals-at.js`)

The daily series arrives as parallel arrays of ISO dates and nullable
max/min values; dates are modelled already parsed into year/month/day. -/

/-- A parsed ISO date `YYYY-MM-DD`. -/
structure ISODate where
  y : ℕ
  m : ℕ
  d : ℕ
deriving DecidableEq

/-- The `daily` block of an Open-Meteo response. -/
structure DailySeries where
  time : List ISODate
  temperature_2m_max : List (Option ℚ)
  temperature_2m_min : List (Option ℚ)
deriving DecidableEq

/-- `isFeb29`. -/
def isFeb29 (d : ISODate) : Bool :=
  d.m == 2 && d.d == 29

/-- Month lengths of the fixed non-leap reference year (2021). -/
def monthLens : List ℕ :=
  [31, 28, 31, 30, 31, 30, 31, 31, 30, 31, 30, 31]

/-- `dayIndexFromMMDD`: the day offset of `new Date(2021, m-1, d)` from
`new Date(2021, 0, 1)` (month 0 rolls back into December 2020). -/
def dayIndexFromMMDD (m d : ℕ) : ℤ :=
  if m = 0 then (d : ℤ) - 32
  else ((monthLens.take (m - 1)).sum : ℤ) + (d : ℤ) - 1

/-- One `acc` bucket: `{maxSum, maxN, minSum, minN}`. -/
structure Bucket where
  maxSum : ℚ := 0
  maxN : ℕ := 0
  minSum : ℚ := 0
  minN : ℕ := 0
deriving DecidableEq

/-- Add one day's finite readings to a bucket. -/
def bumpBucket (hi lo : Option ℚ) (b : Bucket) : Bucket :=
  let b1 := match hi with
    | some v => { b with maxSum := b.maxSum + v, maxN := b.maxN + 1 }
    | none => b
  match lo with
  | some v => { b1 with minSum := b1.minSum + v, minN := b1.minN + 1 }
  | none => b1

/-- In-place update of the insertion-ordered `acc` map keyed by `(m, d)`. -/
def accUpdate :
    List ((ℕ × ℕ) × Bucket) → (ℕ × ℕ) → Option ℚ → Option ℚ → List ((ℕ × ℕ) × Bucket)
  | [], k, hi, lo => [(k, bumpBucket hi lo {})]
  | (k', b) :: rest, k, hi, lo =>
    if k' = k then (k', bumpBucket hi lo b) :: rest
    else (k', b) :: accUpdate rest k hi lo

/-- The `for (i < times.length)` walk pairing each date with `tmax[i]` and
`tmin[i]` (out-of-range reads are `undefined`, i.e. `none`). -/
def dailyEntries (daily : DailySeries) : List (ISODate × Option ℚ × Option ℚ) :=
  (List.range daily.time.length).map fun i =>
    ((daily.time.get? i).getD ⟨0, 0, 0⟩,
      (daily.temperature_2m_max.get? i).getD none,
      (daily.temperature_2m_min.get? i).getD none)

/-- Accumulate every non-Feb-29 day into its month-day bucket. -/
def buildAcc (daily : DailySeries) : List ((ℕ × ℕ) × Bucket) :=
  (dailyEntries daily).foldl
    (fun acc e =>
      if isFeb29 e.1 then acc
      else accUpdate acc (e.1.m, e.1.d) e.2.1 e.2.2)
    []

/-- Turn the buckets into the 365-slot `hi`/`lo` arrays (a slot with no
contributing observation stays `null`). -/
def fill365 (acc : List ((ℕ × ℕ) × Bucket)) : List (Option ℚ) × List (Option ℚ) :=
  acc.foldl
    (fun hl e =>
      let idx := dayIndexFromMMDD e.1.1 e.1.2
      if 0 ≤ idx ∧ idx ≤ 364 then
        (hl.1.set idx.toNat
            (if e.2.maxN ≠ 0 then some (e.2.maxSum / (e.2.maxN : ℚ)) else none),
          hl.2.set idx.toNat
            (if e.2.minN ≠ 0 then some (e.2.minSum / (e.2.minN : ℚ)) else none))
      else hl)
    (List.replicate 365 none, List.replicate 365 none)

/-- `compute365AveragesFromDaily` (the `hiCount`/`loCount` of the source only
feed a non-fatal console warning and are not modelled). -/
def compute365AveragesFromDaily (daily : DailySeries) :
    List (Option ℚ) × List (Option ℚ) :=
  fill365 (buildAcc daily)

/-- The record pushed for a point (`legacy_id` included only when truthy). -/
def recOf (p : MPoint) (daily : DailySeries) : NRec :=
  { id := p.id,
    legacy_id := match p.legacy_id with
      | some s => if s = "" then none else some s
      | none => none,
    hi := (compute365AveragesFromDaily daily).1,
    lo := (compute365AveragesFromDaily daily).2 }

/-- The missing set, recomputed from scratch each run by diffing Point ids
against existing Normals Store ids. -/
def aggMissing (points : List MPoint) (hist : List NRec) : List MPoint :=
  points.filter fun p => !((hist.map NRec.id).contains p.id)

/-- The per-point loop.  The store is persisted after every completed record,
so the list threaded here is always the on-disk state; `budget` counts how
many more records may be written before the run is interrupted (an HTTP
error, a missing `daily.time` or `process.exit` all end the run the same
way: the store keeps exactly the records completed so far).  A point with
invalid coordinates is skipped without writing. -/
def processMissing (fetch : MPoint → Except String DailySeries) :
    ℕ → List MPoint → List NRec → List NRec
  | _, [], hist => hist
  | 0, _ :: _, hist => hist
  | budget + 1, p :: rest, hist =>
    match p.lat, p.lon with
    | some _, some _ =>
      match fetch p with
      | Except.error _ => hist
      | Except.ok daily =>
        if daily.time.length = 0 then hist
        else processMissing fetch budget rest (hist ++ [recOf p daily])
    | _, _ => processMissing fetch (budget + 1) rest hist

/-- One aggregator run over the stores, allowed to write at most `budget`
records before interruption. -/
def aggRun (fetch : MPoint → Except String DailySeries) (budget : ℕ)
    (points : List MPoint) (hist : List NRec) : List NRec :=
  processMissing fetch budget (aggMissing points hist) hist

/-! ## HTTP retry policies -/

/-- An HTTP response as the scripts inspect it (`Retry-After` is the parsed
numeric header when present and finite). -/
structure Resp where
  ok : Bool
  status : ℕ
  retryAfter : Option ℚ := none
deriving DecidableEq

/-- `fetchDailyMaxMin` of the active aggregator: a single request, no retry —
every non-2xx response throws (and `main` turns that into `process.exit`). -/
def fetchDailyMaxMin (http : Resp × DailySeries) : Except String DailySeries :=
  if http.1.ok then Except.ok http.2
  else Except.error ("HTTP " ++ natToString http.1.status ++ " from Open-Meteo")

/-- `fetchWithRetry` CONFIG defaults (deprecated build_planning_normals.js). -/
def FETCH_MAX_RETRIES : ℕ := 8

/-- Default `baseDelayMs`. -/
def FETCH_BASE_DELAY_MS : ℚ := 800

/-- Default `maxDelayMs`. -/
def FETCH_MAX_DELAY_MS : ℚ := 20000

/-- The statuses `fetchWithRetry` retries. -/
def retryableStatus (s : ℕ) : Bool :=
  s == 429 || s == 502 || s == 503

/-- The backoff delay for one failed attempt: the `Retry-After` hint in
milliseconds when usable, else `baseDelayMs * 2 ^ attempt`, capped at
`maxDelayMs`. -/
def delayFor (baseDelayMs maxDelayMs : ℚ) (attempt : ℕ) (ra : Option ℚ) : ℚ :=
  let fallback := baseDelayMs * 2 ^ attempt
  let d0 := match ra with
    | some q => q * 1000
    | none => fallback
  let d1 := if d0 ≤ 0 then fallback else d0
  min d1 maxDelayMs

/-- The `for (attempt = 0; attempt <= maxRetries; attempt++)` loop of
`fetchWithRetry` over an oracle giving the response of each attempt; returns
the outcome and the list of slept delays.  The fuel `maxRetries + 1` covers
every loop iteration, so the fuel-exhausted `"Retry exhausted"` arm is the
dead fall-through throw after the loop. -/
def retryLoop (responses : ℕ → Resp) (maxRetries : ℕ) (base maxD : ℚ) :
    ℕ → ℕ → Except String Resp × List ℚ
  | 0, _ => (Except.error "Retry exhausted", [])
  | fuel + 1, attempt =>
    let resp := responses attempt
    if resp.ok then (Except.ok resp, [])
    else if retryableStatus resp.status = false ∨ attempt = maxRetries then
      (Except.error ("HTTP " ++ natToString resp.status), [])
    else
      let d := delayFor base maxD attempt resp.retryAfter
      let r := retryLoop responses maxRetries base maxD fuel (attempt + 1)
      (r.1, d :: r.2)

/-- `fetchWithRetry(url)` with the default retry configuration. -/
def fetchWithRetry (responses : ℕ → Resp) : Except String Resp × List ℚ :=
  retryLoop responses FETCH_MAX_RETRIES FETCH_BASE_DELAY_MS FETCH_MAX_DELAY_MS
    (FETCH_MAX_RETRIES + 1) 0

/-- Example daily series for the aggregator witness. -/
def egDaily : DailySeries :=
  { time := [⟨2021, 1, 1⟩],
    temperature_2m_max := [some 50],
    temperature_2m_min := [some 30] }

/-- Example point store for the aggregator witness. -/
def egAggPoints : List MPoint :=
  [{ id := "a", lat := some 1, lon := some 1 },
   { id := "b", lat := some 1, lon := some 1 }]

/-! ## Extremes Evaluator (`js/app.js computeAndRenderDurationExtremes`)

The rendering half of the source function only displays the two records
(`renderDurExtremesBlocks` shows "Unable to compute extremes" when either is
missing); the computation over the trip days is modelled here.  The calendar
(`toISODate(addDays(startDate, i)).slice(5)`) is abstracted as the function
`monthDayOf` giving each trip day's month-day. -/

/-- A value of `normalsByPointId` (`{ hi:[365], lo:[365] }`). -/
structure NormEntry where
  hi : List (Option ℚ)
  lo : List (Option ℚ)
deriving DecidableEq

/-- `dayIndexInNonLeapYearFromMonthDay` (the same 2021 date arithmetic as the
aggregator, clamped into `[0, 364]`). -/
def dayIndexInNonLeapYearFromMonthDay (m d : ℕ) : ℕ :=
  (max 0 (min 364 (dayIndexFromMMDD m d))).toNat

/-- The record tracked for a candidate day (`{date, targetMile, point,
avgHigh, avgLow}` with the date abstracted to the day offset). -/
structure DayRec where
  day : ℕ
  targetMile : ℚ
  point : Pt
  avgHigh : ℚ
  avgLow : ℚ
deriving DecidableEq

/-- One loop iteration's data gathering: project and clamp the day's mile,
find the nearest point, fetch its normals entry and the day's slot values;
`none` exactly when the source hits one of its `continue`s. -/
def dayEval (arr : List Pt) (normals : List (String × NormEntry))
    (trailMin trailMax : ℚ) (sobo : Bool) (milesPerDay : ℚ)
    (monthDayOf : ℕ → ℕ × ℕ) (i : ℕ) : Option DayRec :=
  let startMile := if sobo then trailMax else trailMin
  let sign : ℚ := if sobo then -1 else 1
  let tm0 := startMile + sign * (milesPerDay * (i : ℚ))
  let tm1 := if tm0 < trailMin then trailMin else tm0
  let targetMile := if tm1 > trailMax then trailMax else tm1
  match getNearestPointByMile arr targetMile with
  | none => none
  | some point =>
    match jsMapGet normals point.id with
    | none => none
    | some ne =>
      let idx := dayIndexInNonLeapYearFromMonthDay (monthDayOf i).1 (monthDayOf i).2
      match (ne.hi.get? idx).getD none, (ne.lo.get? idx).getD none with
      | some h, some l => some ⟨i, targetMile, point, h, l⟩
      | _, _ => none

/-- `if (!hottest || rec.avgHigh > hottest.avgHigh) hottest = rec`. -/
def updHot (o : Option DayRec) (rec : DayRec) : Option DayRec :=
  match o with
  | none => some rec
  | some h => if rec.avgHigh > h.avgHigh then some rec else some h

/-- `if (!coldest || rec.avgLow < coldest.avgLow) coldest = rec`. -/
def updCold (o : Option DayRec) (rec : DayRec) : Option DayRec :=
  match o with
  | none => some rec
  | some c => if rec.avgLow < c.avgLow then some rec else some c

/-- One iteration of the trip-day loop. -/
def extStep (f : ℕ → Option DayRec) (st : Option DayRec × Option DayRec) (i : ℕ) :
    Option DayRec × Option DayRec :=
  match f i with
  | none => st
  | some rec => (updHot st.1 rec, updCold st.2 rec)

/-- The extremes computation over the whole trip. -/
def computeDurationExtremes (arr : List Pt) (normals : List (String × NormEntry))
    (trailMin trailMax : ℚ) (sobo : Bool) (milesPerDay : ℚ) (durationDays : ℕ)
    (monthDayOf : ℕ → ℕ × ℕ) : Option DayRec × Option DayRec :=
  (List.range durationDays).foldl
    (extStep (dayEval arr normals trailMin trailMax sobo milesPerDay monthDayOf))
    (none, none)

/-- The spec's example sorted point set at miles 0, 10, 20. -/
def egLookupArr : List Pt :=
  [⟨"p0", 0⟩, ⟨"p10", 10⟩, ⟨"p20", 20⟩]

/-! ### Lemmas about the decimal rendering -/

theorem digitsVal_natDigits (n : ℕ) : digitsVal (natDigits n) = n := by
  induction n using Nat.strong_induction_on with
  | _ n ih =>
    rw [natDigits]
    by_cases h : n = 0
    · simp [h, digitsVal]
    · simp only [if_neg h, digitsVal, List.foldr_cons]
      have hlt : n / 10 < n := Nat.div_lt_self (Nat.pos_of_ne_zero h) (by norm_num)
      have := ih (n / 10) hlt
      simp only [digitsVal] at this
      rw [this]
      omega

theorem natDigits_lt_ten (n : ℕ) : ∀ d ∈ natDigits n, d < 10 := by
  induction n using Nat.strong_induction_on with
  | _ n ih =>
    intro d hd
    rw [natDigits] at hd
    by_cases h : n = 0
    · simp [h] at hd
    · simp only [if_neg h, List.mem_cons] at hd
      rcases hd with h' | h'
      · omega
      · exact ih (n / 10) (Nat.div_lt_self (Nat.pos_of_ne_zero h) (by norm_num)) d h'

theorem digitChar_toNat_sub (d : ℕ) (hd : d < 10) : (Nat.digitChar d).toNat - 48 = d := by
  revert hd
  revert d
  decide

theorem parseNat_foldl_digits (L : List ℕ) (hL : ∀ d ∈ L, d < 10) :
    ∀ a : ℕ, List.foldl (fun a c => 10 * a + (c.toNat - 48)) a ((L.map Nat.digitChar).reverse)
      = a * 10 ^ L.length + digitsVal L := by
  induction L with
  | nil => intro a; simp [digitsVal]
  | cons d L ih =>
    intro a
    have hd : d < 10 := hL d (List.mem_cons_self d L)
    have hL' : ∀ x ∈ L, x < 10 := fun x hx => hL x (List.mem_cons_of_mem d hx)
    simp only [List.map_cons, List.reverse_cons, List.foldl_append, List.foldl_cons,
      List.foldl_nil, ih hL']
    rw [digitChar_toNat_sub d hd]
    simp only [digitsVal, List.foldr_cons, List.length_cons]
    ring

theorem parseNat_natToChars (n : ℕ) : parseNat (natToChars n) = n := by
  by_cases hn : n = 0
  · subst hn; decide
  · simp only [natToChars, if_neg hn, parseNat]
    rw [parseNat_foldl_digits (natDigits n) (natDigits_lt_ten n)]
    simp [digitsVal_natDigits]

theorem parseNat_replicate_zero (k : ℕ) (l : List Char) :
    parseNat (List.replicate k '0' ++ l) = parseNat l := by
  induction k with
  | zero => simp
  | succ k ih =>
    simpa [parseNat, List.foldl_append] using congrArg (fun t => t) ih

theorem parseNat_padStart_natToString (n w : ℕ) :
    parseNat (padStart (natToString n) w '0').data = n := by
  show parseNat (List.replicate _ '0' ++ (natToString n).data) = n
  rw [parseNat_replicate_zero]
  exact parseNat_natToChars n

/-- `String.append` concatenates the underlying character lists. -/
theorem strAppendData (s t : String) : (s ++ t).data = s.data ++ t.data := rfl

/-- Appending a common first part to strings is injective on the second part. -/
theorem strAppendCancel (p s t : String) (h : p ++ s = p ++ t) : s = t := by
  have hd := congrArg String.data h
  rw [strAppendData, strAppendData] at hd
  have hdata := List.append_cancel_left hd
  cases s with
  | mk ds =>
    cases t with
    | mk dt => exact congrArg String.mk (by simpa using hdata)

theorem padStart_natToString_injective (n1 n2 w1 w2 : ℕ)
    (h : padStart (natToString n1) w1 '0' = padStart (natToString n2) w2 '0') : n1 = n2 := by
  have := congrArg (fun s : String => parseNat s.data) h
  simpa [parseNat_padStart_natToString] using this

/-! ### Evaluation helpers for concrete codec outputs -/

theorem natToString_eval (n : ℕ) (ds : List ℕ) (h : natDigits n = ds) (hn : n ≠ 0) :
    natToString n = ⟨(ds.map Nat.digitChar).reverse⟩ := by
  unfold natToString natToChars
  rw [if_neg hn, h]

theorem toNewId_num_eq (q : ℚ) :
    toNewId (JSNum.num q)
      = Except.ok (TRAIL_CODE ++ "-" ++ ALIGNMENT ++ "-mi"
          ++ padStart (intToString (round (q * SCALE))) PAD_WIDTH '0') := rfl

theorem intToString_ofNat (n : ℕ) : intToString (n : ℤ) = natToString n := by
  unfold intToString
  rw [if_neg (by omega), Int.toNat_natCast]

theorem toNewId_eval (q : ℚ) (n : ℕ) (hq : round (q * SCALE) = (n : ℤ)) :
    toNewId (JSNum.num q)
      = Except.ok (TRAIL_CODE ++ "-" ++ ALIGNMENT ++ "-mi"
          ++ padStart (natToString n) PAD_WIDTH '0') := by
  rw [toNewId_num_eq, hq, intToString_ofNat]

/-- C1: for every finite mile `m` the Identity Codec returns the fixed prefix
`at-main-mi` followed by `round(m * 1000)` zero-padded to 7 digits; mile
`2190.3` encodes to exactly `at-main-mi2190300`; and every non-finite input
signals an encoding error instead of returning an id. -/
theorem codec_encodes_scaled_mile_and_rejects_nonfinite :
    toNewId (JSNum.num (21903 / 10)) = Except.ok "at-main-mi2190300"
    ∧ (∀ q : ℚ, toNewId (JSNum.num q)
        = Except.ok (TRAIL_CODE ++ "-" ++ ALIGNMENT ++ "-mi"
            ++ padStart (intToString (round (q * SCALE))) PAD_WIDTH '0'))
    ∧ (∀ m : JSNum, m.isFinite = false → ∃ e, toNewId m = Except.error e) := by
  refine ⟨?_, fun q => rfl, ?_⟩
  · have h1 : round ((21903 / 10 : ℚ) * SCALE) = ((2190300 : ℕ) : ℤ) := by
      norm_num [round_eq, SCALE]
    rw [toNewId_eval _ _ h1]
    have hs : natToString 2190300 = "2190300" :=
      (natToString_eval 2190300 [0, 0, 3, 0, 9, 1, 2] (by simp [natDigits]) (by decide)).trans
        (by decide)
    rw [hs]
    exact congrArg Except.ok (by decide)
  · intro m hm
    cases m with
    | num q => simp [JSNum.isFinite] at hm
    | nan => exact ⟨_, rfl⟩
    | posInf => exact ⟨_, rfl⟩
    | negInf => exact ⟨_, rfl⟩

/-- Witness for C1: the non-finite branch at the concrete input `NaN`. -/
theorem codec_encodes_scaled_mile_and_rejects_nonfinite_witness :
    JSNum.nan.isFinite = false ∧ ∃ e, toNewId JSNum.nan = Except.error e :=
  ⟨rfl, codec_encodes_scaled_mile_and_rejects_nonfinite.2.2 JSNum.nan rfl⟩

/-- C2: miles whose scaled roundings differ (and fit the 7-digit token range)
get distinct canonical ids. -/
theorem codec_injective_at_resolution (m1 m2 : ℚ)
    (h1a : 0 ≤ round (m1 * SCALE)) (h1b : round (m1 * SCALE) < 10 ^ PAD_WIDTH)
    (h2a : 0 ≤ round (m2 * SCALE)) (h2b : round (m2 * SCALE) < 10 ^ PAD_WIDTH)
    (hne : round (m1 * SCALE) ≠ round (m2 * SCALE)) :
    toNewId (JSNum.num m1) ≠ toNewId (JSNum.num m2) := by
  intro h
  obtain ⟨n1, hn1⟩ : ∃ n : ℕ, round (m1 * SCALE) = (n : ℤ) :=
    ⟨_, (Int.toNat_of_nonneg h1a).symm⟩
  obtain ⟨n2, hn2⟩ : ∃ n : ℕ, round (m2 * SCALE) = (n : ℤ) :=
    ⟨_, (Int.toNat_of_nonneg h2a).symm⟩
  rw [toNewId_num_eq, toNewId_num_eq, hn1, hn2, intToString_ofNat, intToString_ofNat] at h
  have h' : TRAIL_CODE ++ "-" ++ ALIGNMENT ++ "-mi" ++ padStart (natToString n1) PAD_WIDTH '0'
      = TRAIL_CODE ++ "-" ++ ALIGNMENT ++ "-mi" ++ padStart (natToString n2) PAD_WIDTH '0' := by
    injection h
  have htok := strAppendCancel _ _ _ h'
  have hval := padStart_natToString_injective n1 n2 PAD_WIDTH PAD_WIDTH htok
  apply hne
  rw [hn1, hn2, hval]

/-- Witness for C2: miles `2190.3` and `10` have distinct rounded tokens and
distinct ids. -/
theorem codec_injective_at_resolution_witness :
    toNewId (JSNum.num (21903 / 10)) ≠ toNewId (JSNum.num 10) := by
  have e1 : round ((21903 / 10 : ℚ) * SCALE) = 2190300 := by norm_num [round_eq, SCALE]
  have e2 : round ((10 : ℚ) * SCALE) = 10000 := by norm_num [round_eq, SCALE]
  exact codec_injective_at_resolution (21903 / 10) 10
    (by rw [e1]; norm_num) (by rw [e1]; norm_num [PAD_WIDTH])
    (by rw [e2]; norm_num) (by rw [e2]; norm_num [PAD_WIDTH])
    (by rw [e1, e2]; norm_num)

/-! ### Migration Engine lemmas -/

theorem mapExcept_ok_forall {α β : Type} (f : α → Except String β) :
    ∀ (l : List α) (bs : List β), mapExcept f l = Except.ok bs →
      ∀ b ∈ bs, ∃ a ∈ l, f a = Except.ok b := by
  intro l
  induction l with
  | nil =>
    intro bs h b hb
    simp only [mapExcept] at h
    cases h
    simp at hb
  | cons a l ih =>
    intro bs h b hb
    simp only [mapExcept] at h
    cases hfa : f a with
    | error e => rw [hfa] at h; cases h
    | ok b0 =>
      rw [hfa] at h
      cases hrec : mapExcept f l with
      | error e => rw [hrec] at h; cases h
      | ok bs0 =>
        rw [hrec] at h
        cases h
        rcases List.mem_cons.mp hb with hb | hb
        · exact ⟨a, List.mem_cons_self a l, hb ▸ hfa⟩
        · obtain ⟨a', ha', hfa'⟩ := ih bs0 hrec b hb
          exact ⟨a', List.mem_cons_of_mem a ha', hfa'⟩

theorem mapExcept_ok_of_forall {α β : Type} (f : α → Except String β) (g : α → β) :
    ∀ l : List α, (∀ a ∈ l, f a = Except.ok (g a)) →
      mapExcept f l = Except.ok (l.map g) := by
  intro l
  induction l with
  | nil => intro _; rfl
  | cons a l ih =>
    intro h
    simp only [mapExcept, h a (List.mem_cons_self a l),
      ih fun x hx => h x (List.mem_cons_of_mem a hx), List.map_cons]

theorem ensureUniqueIdsAux_ok_iff (label : String) :
    ∀ (l seen : List String),
      ensureUniqueIdsAux label seen l = Except.ok () ↔
        l.Nodup ∧ ∀ x ∈ l, x ∉ seen := by
  intro l
  induction l with
  | nil => intro seen; simp [ensureUniqueIdsAux]
  | cons i rest ih =>
    intro seen
    by_cases hmem : i ∈ seen
    · simp only [ensureUniqueIdsAux, if_pos hmem]
      constructor
      · intro h; cases h
      · rintro ⟨-, hall⟩
        exact absurd hmem (hall i (List.mem_cons_self i rest))
    · simp only [ensureUniqueIdsAux, if_neg hmem, ih (i :: seen)]
      constructor
      · rintro ⟨hnd, hall⟩
        refine ⟨List.nodup_cons.mpr ⟨?_, hnd⟩, ?_⟩
        · intro hi
          exact (hall i hi) (List.mem_cons_self i seen)
        · intro x hx
          rcases List.mem_cons.mp hx with h | h
          · exact h ▸ hmem
          · exact fun hxs => (hall x h) (List.mem_cons_of_mem i hxs)
      · rintro ⟨hnd, hall⟩
        obtain ⟨hni, hnd'⟩ := List.nodup_cons.mp hnd
        refine ⟨hnd', fun x hx hxc => ?_⟩
        rcases List.mem_cons.mp hxc with h | h
        · exact hni (h ▸ hx)
        · exact hall x (List.mem_cons_of_mem i hx) h

theorem ensureUniqueIds_ok_iff (ids : List String) (label : String) :
    ensureUniqueIds ids label = Except.ok () ↔ ids.Nodup := by
  rw [ensureUniqueIds, ensureUniqueIdsAux_ok_iff]
  simp

theorem ensureUniqueIds_error_of_dup (ids : List String) (label : String)
    (h : ¬ ids.Nodup) : ∃ e, ensureUniqueIds ids label = Except.error e := by
  cases hu : ensureUniqueIds ids label with
  | error e => exact ⟨e, rfl⟩
  | ok u =>
    cases u
    exact absurd ((ensureUniqueIds_ok_iff ids label).mp hu) h

theorem jsMapGet_mem {β : Type} (k : String) (v : β) :
    ∀ (m : List (String × β)) (acc : Option β),
      m.foldl (fun acc e => if e.1 = k then some e.2 else acc) acc = some v →
      (k, v) ∈ m ∨ acc = some v := by
  intro m
  induction m with
  | nil => intro acc h; exact Or.inr h
  | cons e m ih =>
    intro acc h
    simp only [List.foldl_cons] at h
    rcases ih _ h with hmem | hacc
    · exact Or.inl (List.mem_cons_of_mem e hmem)
    · by_cases he : e.1 = k
      · rw [if_pos he] at hacc
        cases hacc
        exact Or.inl (by rw [← he]; exact List.mem_cons_self e m)
      · rw [if_neg he] at hacc
        exact Or.inr hacc

theorem jsMapGet_eq_some_mem {β : Type} (m : List (String × β)) (k : String) (v : β)
    (h : jsMapGet m k = some v) : (k, v) ∈ m := by
  rcases jsMapGet_mem k v m none h with hm | hnone
  · exact hm
  · cases hnone

theorem jsMapGet_pair_self_aux (l : List String) (k : String) :
    ∀ acc : Option String,
      (l.map (fun s => (s, s))).foldl (fun acc e => if e.1 = k then some e.2 else acc) acc
        = if k ∈ l then some k else acc := by
  induction l with
  | nil => intro acc; simp
  | cons a l ih =>
    intro acc
    simp only [List.map_cons, List.foldl_cons, ih]
    by_cases hkl : k ∈ l
    · simp [hkl, List.mem_cons]
    · by_cases hak : a = k
      · simp [hak, hkl, List.mem_cons]
      · simp [hak, hkl, List.mem_cons, Ne.symm hak]

theorem jsMapGet_pair_self (l : List String) (k : String) :
    jsMapGet (l.map (fun s => (s, s))) k = if k ∈ l then some k else none :=
  jsMapGet_pair_self_aux l k none

theorem mileFromPoint_congr (p p' : MPoint) (hm : p'.mile = p.mile)
    (he : p'.mile_est = p.mile_est) (q : ℚ) (h : mileFromPoint p = Except.ok q) :
    mileFromPoint p' = Except.ok q := by
  unfold mileFromPoint at h ⊢
  rw [hm, he]
  cases hpm : p.mile with
  | some q' => rw [hpm] at h; exact h
  | none =>
    rw [hpm] at h
    cases hpe : p.mile_est with
    | some q' => rw [hpe] at h; exact h
    | none => rw [hpe] at h; cases h

theorem migratePoint_ok_shape (p p' : MPoint) (pr : String × String)
    (h : migratePoint p = Except.ok (p', pr)) :
    ∃ mile, mileFromPoint p = Except.ok mile
      ∧ p' = { p with
          legacy_id := some (p.legacy_id.getD p.id),
          id := TRAIL_CODE ++ "-" ++ ALIGNMENT ++ "-mi"
            ++ padStart (intToString (round (mile * SCALE))) PAD_WIDTH '0' }
      ∧ pr = (p.id, p'.id) := by
  cases hm : mileFromPoint p with
  | error e => simp only [migratePoint, hm] at h; cases h
  | ok mile =>
    simp only [migratePoint, hm, toNewId_num_eq, Except.ok.injEq, Prod.mk.injEq] at h
    refine ⟨mile, rfl, h.1.symm, ?_⟩
    rw [← h.2, ← h.1]

theorem migratePoint_again (p p' : MPoint) (pr : String × String)
    (h : migratePoint p = Except.ok (p', pr)) :
    migratePoint p' = Except.ok (p', (p'.id, p'.id)) := by
  obtain ⟨mile, hm, hp', -⟩ := migratePoint_ok_shape p p' pr h
  have hm' : mileFromPoint p' = Except.ok mile :=
    mileFromPoint_congr p p' (by rw [hp']) (by rw [hp']) mile hm
  simp only [migratePoint, hm', toNewId_num_eq]
  subst hp'
  simp

theorem migrateNormal_ok_shape (m : List (String × String)) (rec rec' : NRec)
    (h : migrateNormal m rec = Except.ok rec') :
    (rec.id, rec'.id) ∈ m
      ∧ rec' = { rec with
          legacy_id := some (rec.legacy_id.getD rec.id),
          id := rec'.id } := by
  unfold migrateNormal at h
  cases hg : jsMapGet m rec.id with
  | none => rw [hg] at h; cases h
  | some newId =>
    rw [hg] at h
    cases h
    exact ⟨jsMapGet_eq_some_mem m rec.id newId hg, rfl⟩

theorem migrateNormal_identity (ids : List String) (rec : NRec) (l : String)
    (hleg : rec.legacy_id = some l) (hid : rec.id ∈ ids) :
    migrateNormal (ids.map (fun s => (s, s))) rec = Except.ok rec := by
  unfold migrateNormal
  rw [jsMapGet_pair_self, if_pos hid, hleg]
  cases rec
  simp_all

theorem getNormalsArray_rebuild (root : NormalsRoot) (arr arr' : List NRec)
    (h : getNormalsArray root = Except.ok arr) :
    getNormalsArray (rebuildNormalsRoot root arr') = Except.ok arr' := by
  cases root with
  | rootArray a => rfl
  | pointsObj a => rfl
  | malformed => cases h

theorem rebuildNormalsRoot_idem (root : NormalsRoot) (a b : List NRec) :
    rebuildNormalsRoot (rebuildNormalsRoot root a) b = rebuildNormalsRoot root b := by
  cases root <;> rfl

theorem buildMixedMaps_error_of_missing (l : List MPoint)
    (h : ∃ p ∈ l, p.legacy_id = none) : ∃ e, buildMixedMaps l = Except.error e := by
  induction l with
  | nil => simp at h
  | cons p0 rest ih =>
    obtain ⟨p, hp, hleg⟩ := h
    cases hl0 : p0.legacy_id with
    | none =>
      exact ⟨"Point " ++ p0.id ++ " missing legacy_id", by simp [buildMixedMaps, hl0]⟩
    | some s =>
      have hp' : p ∈ rest := by
        rcases List.mem_cons.mp hp with h | h
        · exact absurd (h ▸ hleg) (by simp [hl0])
        · exact h
      by_cases hs : s = ""
      · exact ⟨"Point " ++ p0.id ++ " missing legacy_id",
          by simp [buildMixedMaps, hl0, hs]⟩
      · obtain ⟨e, he⟩ := ih ⟨p, hp', hleg⟩
        exact ⟨e, by simp [buildMixedMaps, hl0, hs, he]⟩

/-- Success shape of the migrate-ids-at-main.js run: every stage succeeded
and the final disk holds the two rewritten stores plus the backup snapshot. -/
theorem mainPart001_ok_shape (d : Disk) (h : (mainPart001 d).1 = Except.ok ()) :
    ∃ pairs normalsArr updatedNormals,
      mapExcept migratePoint d.pointsFile = Except.ok pairs
      ∧ ensureUniqueIds ((pairs.map Prod.fst).map MPoint.id) "points" = Except.ok ()
      ∧ getNormalsArray d.normalsFile = Except.ok normalsArr
      ∧ mapExcept (migrateNormal (pairs.map Prod.snd)) normalsArr
          = Except.ok updatedNormals
      ∧ ensureUniqueIds (updatedNormals.map NRec.id) "normals" = Except.ok ()
      ∧ (mainPart001 d).2 =
          { pointsFile := pairs.map Prod.fst,
            normalsFile := rebuildNormalsRoot d.normalsFile updatedNormals,
            backups := d.backups ++ [(d.pointsFile, d.normalsFile)] } := by
  cases h1 : mapExcept migratePoint d.pointsFile with
  | error e => simp only [mainPart001, h1] at h; exact Except.noConfusion h
  | ok pairs =>
    cases h2 : ensureUniqueIds ((pairs.map Prod.fst).map MPoint.id) "points" with
    | error e => simp only [mainPart001, h1, h2] at h; exact Except.noConfusion h
    | ok u2 =>
      cases u2
      cases h3 : getNormalsArray d.normalsFile with
      | error e => simp only [mainPart001, h1, h2, h3] at h; exact Except.noConfusion h
      | ok normalsArr =>
        cases h4 : mapExcept (migrateNormal (pairs.map Prod.snd)) normalsArr with
        | error e => simp only [mainPart001, h1, h2, h3, h4] at h; exact Except.noConfusion h
        | ok updatedNormals =>
          cases h5 : ensureUniqueIds (updatedNormals.map NRec.id) "normals" with
          | error e =>
            simp only [mainPart001, h1, h2, h3, h4, h5] at h
            exact Except.noConfusion h
          | ok u5 =>
            cases u5
            exact ⟨pairs, normalsArr, updatedNormals, rfl, h2, rfl, h4, h5,
              by simp only [mainPart001, h1, h2, h3, h4, h5]⟩

theorem secondRun_points (d : Disk) (pairs : List (MPoint × String × String))
    (h1 : mapExcept migratePoint d.pointsFile = Except.ok pairs) :
    mapExcept migratePoint (pairs.map Prod.fst)
      = Except.ok ((pairs.map Prod.fst).map (fun p => (p, (p.id, p.id)))) := by
  apply mapExcept_ok_of_forall
  intro p' hp'
  obtain ⟨x, hx, hx1⟩ := List.mem_map.mp hp'
  obtain ⟨a, ha, hfa⟩ := mapExcept_ok_forall _ _ _ h1 x hx
  have hx' : x = (p', x.2) := by rw [← hx1]
  rw [hx'] at hfa
  exact migratePoint_again a p' x.2 hfa

theorem secondRun_normal_ids (d : Disk) (pairs : List (MPoint × String × String))
    (arr uarr : List NRec)
    (h1 : mapExcept migratePoint d.pointsFile = Except.ok pairs)
    (h4 : mapExcept (migrateNormal (pairs.map Prod.snd)) arr = Except.ok uarr) :
    ∀ rec' ∈ uarr, rec'.id ∈ (pairs.map Prod.fst).map MPoint.id
      ∧ ∃ l, rec'.legacy_id = some l := by
  intro rec' hrec'
  obtain ⟨rec, hrec, hmig⟩ := mapExcept_ok_forall _ _ _ h4 rec' hrec'
  obtain ⟨hmem, hshape⟩ := migrateNormal_ok_shape _ _ _ hmig
  constructor
  · obtain ⟨x, hx, hx2⟩ := List.mem_map.mp hmem
    obtain ⟨a, ha, hfa⟩ := mapExcept_ok_forall _ _ _ h1 x hx
    have hfa' : migratePoint a = Except.ok (x.1, x.2) := by rw [← hfa]
    obtain ⟨mile, -, -, hxpr⟩ := migratePoint_ok_shape a x.1 x.2 hfa'
    have hid : rec'.id = x.1.id := by
      rw [hxpr] at hx2
      exact (Prod.mk.injEq _ _ _ _ ▸ hx2).2.symm
    exact List.mem_map.mpr ⟨x.1, List.mem_map.mpr ⟨x, hx, rfl⟩, hid.symm⟩
  · exact ⟨rec.legacy_id.getD rec.id, by rw [hshape]⟩

/-- C3: the Migration Engine is idempotent — a second run on the stores a
successful run produced succeeds and rewrites nothing: every Point and
NormalsRecord keeps the same id and `legacy_id` (so an already-set
`legacy_id` is never overwritten by the later pass). -/
theorem migration_engine_idempotent (d : Disk)
    (h : (mainPart001 d).1 = Except.ok ()) :
    (mainPart001 ((mainPart001 d).2)).1 = Except.ok ()
    ∧ (mainPart001 ((mainPart001 d).2)).2.pointsFile = ((mainPart001 d).2).pointsFile
    ∧ (mainPart001 ((mainPart001 d).2)).2.normalsFile
        = ((mainPart001 d).2).normalsFile := by
  obtain ⟨pairs, arr, uarr, h1, h2, h3, h4, h5, hd⟩ := mainPart001_ok_shape d h
  have hpts2 := secondRun_points d pairs h1
  have hPRfst : ((pairs.map Prod.fst).map
      (fun p => (p, (p.id, p.id)))).map Prod.fst = pairs.map Prod.fst := by
    simp [List.map_map]
  have hl2n : ((pairs.map Prod.fst).map (fun p => (p, (p.id, p.id)))).map Prod.snd
      = ((pairs.map Prod.fst).map MPoint.id).map (fun s => (s, s)) := by
    simp [List.map_map]
  have h3' : getNormalsArray (rebuildNormalsRoot d.normalsFile uarr) = Except.ok uarr :=
    getNormalsArray_rebuild d.normalsFile arr uarr h3
  have h4' : mapExcept
      (migrateNormal (((pairs.map Prod.fst).map MPoint.id).map (fun s => (s, s)))) uarr
      = Except.ok uarr := by
    have hpw : ∀ rec' ∈ uarr,
        migrateNormal (((pairs.map Prod.fst).map MPoint.id).map (fun s => (s, s))) rec'
          = Except.ok (id rec') := by
      intro rec' hrec'
      obtain ⟨hid, l, hleg⟩ := secondRun_normal_ids d pairs arr uarr h1 h4 rec' hrec'
      exact migrateNormal_identity _ rec' l hleg hid
    have := mapExcept_ok_of_forall _ id uarr hpw
    simpa using this
  rw [hd]
  refine ⟨?_, ?_, ?_⟩ <;>
    simp only [mainPart001, hpts2, hPRfst, h2, h3', hl2n, h4', h5,
      rebuildNormalsRoot_idem]

/-- Evaluation of the codec at mile 10, reused by several witnesses. -/
theorem toNewId_ten : toNewId (JSNum.num 10) = Except.ok "at-main-mi0010000" := by
  have h1 : round ((10 : ℚ) * SCALE) = ((10000 : ℕ) : ℤ) := by norm_num [round_eq, SCALE]
  rw [toNewId_eval _ _ h1]
  have hs : natToString 10000 = "10000" :=
    (natToString_eval 10000 [0, 0, 0, 0, 1] (by simp [natDigits]) (by decide)).trans (by decide)
  rw [hs]
  exact congrArg Except.ok (by decide)

/-- Witness for C3: a concrete successful run on `egDisk`, then the
idempotence theorem applied to it. -/
theorem migration_engine_idempotent_witness :
    (mainPart001 egDisk).1 = Except.ok ()
    ∧ ((mainPart001 ((mainPart001 egDisk).2)).1 = Except.ok ()
      ∧ (mainPart001 ((mainPart001 egDisk).2)).2.pointsFile
          = ((mainPart001 egDisk).2).pointsFile
      ∧ (mainPart001 ((mainPart001 egDisk).2)).2.normalsFile
          = ((mainPart001 egDisk).2).normalsFile) := by
  have hok : (mainPart001 egDisk).1 = Except.ok () := by
    simp [mainPart001, egDisk, egPoint, egNormal, mapExcept, migratePoint, mileFromPoint,
      toNewId_ten, ensureUniqueIds, ensureUniqueIdsAux, getNormalsArray, migrateNormal,
      jsMapGet]
  exact ⟨hok, migration_engine_idempotent egDisk hok⟩

/-- C4: a duplicate among the rewritten Point ids, or among the rewritten
NormalsRecord ids, fails the whole migrate-ids-at-main.js run; the store
files are written only after every validation passed, so on any fatal error
(of either migration script) the disk is left exactly as before the run. -/
theorem migration_validates_before_write :
    (∀ (d : Disk) (pairs : List (MPoint × String × String)),
        mapExcept migratePoint d.pointsFile = Except.ok pairs →
        ¬ ((pairs.map Prod.fst).map MPoint.id).Nodup →
        ∃ e, mainPart001 d = (Except.error e, d))
    ∧ (∀ (d : Disk) (pairs : List (MPoint × String × String)) (arr uarr : List NRec),
        mapExcept migratePoint d.pointsFile = Except.ok pairs →
        getNormalsArray d.normalsFile = Except.ok arr →
        mapExcept (migrateNormal (pairs.map Prod.snd)) arr = Except.ok uarr →
        ¬ (uarr.map NRec.id).Nodup →
        ∃ e, mainPart001 d = (Except.error e, d))
    ∧ (∀ (d : Disk) (e : String),
        (mainPart001 d).1 = Except.error e → (mainPart001 d).2 = d)
    ∧ (∀ (dm : DiskMixed) (e : String),
        (mixedMain dm).1 = Except.error e → (mixedMain dm).2 = dm) := by
  refine ⟨?_, ?_, ?_, ?_⟩
  · intro d pairs h1 hdup
    obtain ⟨e, he⟩ := ensureUniqueIds_error_of_dup _ "points" hdup
    exact ⟨e, by simp only [mainPart001, h1, he]⟩
  · intro d pairs arr uarr h1 h3 h4 hdup
    cases h2 : ensureUniqueIds ((pairs.map Prod.fst).map MPoint.id) "points" with
    | error e => exact ⟨e, by simp only [mainPart001, h1, h2]⟩
    | ok u2 =>
      cases u2
      obtain ⟨e, he⟩ := ensureUniqueIds_error_of_dup _ "normals" hdup
      exact ⟨e, by simp only [mainPart001, h1, h2, h3, h4, he]⟩
  · intro d e h
    cases h1 : mapExcept migratePoint d.pointsFile with
    | error e1 => simp only [mainPart001, h1]
    | ok pairs =>
      cases h2 : ensureUniqueIds ((pairs.map Prod.fst).map MPoint.id) "points" with
      | error e2 => simp only [mainPart001, h1, h2]
      | ok u2 =>
        cases u2
        cases h3 : getNormalsArray d.normalsFile with
        | error e3 => simp only [mainPart001, h1, h2, h3]
        | ok arr =>
          cases h4 : mapExcept (migrateNormal (pairs.map Prod.snd)) arr with
          | error e4 => simp only [mainPart001, h1, h2, h3, h4]
          | ok uarr =>
            cases h5 : ensureUniqueIds (uarr.map NRec.id) "normals" with
            | error e5 => simp only [mainPart001, h1, h2, h3, h4, h5]
            | ok u5 =>
              cases u5
              simp only [mainPart001, h1, h2, h3, h4, h5] at h
              exact Except.noConfusion h
  · intro dm e h
    cases hb : buildMixedMaps dm.pointsFile with
    | error e1 => simp only [mixedMain, hb]
    | ok maps =>
      obtain ⟨l2n, n2l⟩ := maps
      cases hh : dm.histFile with
      | pointsObj pts =>
        cases hmap : mapExcept (mixedNormalRec l2n n2l) pts with
        | error e2 => simp only [mixedMain, hb, hh, hmap]
        | ok updated =>
          simp only [mixedMain, hb, hh, hmap] at h
          exact Except.noConfusion h
      | rootArray a => simp only [mixedMain, hb, hh]
      | malformed => simp only [mixedMain, hb, hh]

/-- Witness for C4: the duplicate-mile disk `egDupDisk` fails and is left
unchanged. -/
theorem migration_validates_before_write_witness :
    ∃ e, mainPart001 egDupDisk = (Except.error e, egDupDisk) :=
  migration_validates_before_write.1 egDupDisk
    [({ id := "at-main-mi0010000", legacy_id := some "A", mile := some 10 },
        ("A", "at-main-mi0010000")),
     ({ id := "at-main-mi0010000", legacy_id := some "B", mile := some 10 },
        ("B", "at-main-mi0010000"))]
    (by simp [egDupDisk, mapExcept, migratePoint, mileFromPoint, toNewId_ten])
    (by decide)

/-- C10: the mixed-id migration script throws whenever any Point lacks a
`legacy_id`, before touching the Normals Store: the run fails, the disk is
unchanged, and the outcome does not depend on the Normals Store content —
so a fully canonical Point Store without legacy ids cannot be processed. -/
theorem mixed_script_requires_legacy_ids (d : DiskMixed) (p : MPoint)
    (hp : p ∈ d.pointsFile) (hleg : p.legacy_id = none) :
    (∃ e, (mixedMain d).1 = Except.error e)
    ∧ (mixedMain d).2 = d
    ∧ ∀ h' : NormalsRoot, (mixedMain { d with histFile := h' }).1 = (mixedMain d).1 := by
  obtain ⟨e, he⟩ := buildMixedMaps_error_of_missing d.pointsFile ⟨p, hp, hleg⟩
  refine ⟨⟨e, ?_⟩, ?_, ?_⟩
  · simp only [mixedMain, he]
  · simp only [mixedMain, he]
  · intro h'
    simp only [mixedMain, he]

/-- Witness for C10: the canonical-only store `egMixedDisk` cannot be
processed. -/
theorem mixed_script_requires_legacy_ids_witness :
    (∃ e, (mixedMain egMixedDisk).1 = Except.error e)
    ∧ (mixedMain egMixedDisk).2 = egMixedDisk
    ∧ ∀ h' : NormalsRoot,
        (mixedMain { egMixedDisk with histFile := h' }).1 = (mixedMain egMixedDisk).1 :=
  mixed_script_requires_legacy_ids egMixedDisk { id := "at-main-mi0010000" }
    (List.mem_singleton.mpr rfl) rfl

theorem ptAt_eq_get (arr : List Pt) (i : ℤ) (h0 : 0 ≤ i)
    (hlt : i.toNat < arr.length) :
    ptAt arr i = some (arr.get ⟨i.toNat, hlt⟩) := by
  rw [ptAt, if_neg (by omega), List.get?_eq_get hlt]

theorem nearLoop_spec (arr : List Pt) (t : ℚ)
    (hmono : ∀ (i j : ℕ) (hi : i < arr.length) (hj : j < arr.length), i < j →
      (arr.get ⟨i, hi⟩).mile_est < (arr.get ⟨j, hj⟩).mile_est) :
    ∀ (fuel : ℕ) (lo hi : ℤ),
      0 ≤ lo → lo ≤ hi + 1 → hi < (arr.length : ℤ) → hi + 1 - lo ≤ (fuel : ℤ) →
      (∀ (i : ℕ) (h : i < arr.length), (i : ℤ) < lo → (arr.get ⟨i, h⟩).mile_est < t) →
      (∀ (i : ℕ) (h : i < arr.length), hi < (i : ℤ) → t < (arr.get ⟨i, h⟩).mile_est) →
      (match nearLoop arr t fuel lo hi with
       | Sum.inl p => p ∈ arr ∧ p.mile_est = t
       | Sum.inr (lo', hi') =>
           hi' = lo' - 1 ∧ 0 ≤ lo' ∧ lo' ≤ (arr.length : ℤ)
           ∧ (∀ (i : ℕ) (h : i < arr.length), (i : ℤ) < lo' →
                (arr.get ⟨i, h⟩).mile_est < t)
           ∧ (∀ (i : ℕ) (h : i < arr.length), hi' < (i : ℤ) →
                t < (arr.get ⟨i, h⟩).mile_est)) := by
  intro fuel
  induction fuel with
  | zero =>
    intro lo hi h0 hle hlt hfuel hlow hhigh
    simp only [nearLoop]
    exact ⟨by omega, by omega, by omega, hlow, by
      intro i h hi
      exact hhigh i h (by omega)⟩
  | succ fuel ih =>
    intro lo hi h0 hle hlt hfuel hlow hhigh
    simp only [nearLoop]
    by_cases hlohi : lo ≤ hi
    · rw [if_pos hlohi]
      have hmidlo : lo ≤ (lo + hi) / 2 := by omega
      have hmidhi : (lo + hi) / 2 ≤ hi := by omega
      have hmidlt : ((lo + hi) / 2).toNat < arr.length := by omega
      rw [ptAt_eq_get arr _ (by omega) hmidlt]
      dsimp only
      by_cases heq : (arr.get ⟨((lo + hi) / 2).toNat, hmidlt⟩).mile_est = t
      · rw [if_pos heq]
        exact ⟨List.get_mem arr _ _, heq⟩
      · rw [if_neg heq]
        by_cases hltmid : (arr.get ⟨((lo + hi) / 2).toNat, hmidlt⟩).mile_est < t
        · rw [if_pos hltmid]
          refine ih ((lo + hi) / 2 + 1) hi (by omega) (by omega) hlt (by omega) ?_ hhigh
          intro i h hi2
          rcases lt_or_ge (i : ℤ) lo with hcase | hcase
          · exact hlow i h hcase
          · rcases lt_or_eq_of_le (show i ≤ ((lo + hi) / 2).toNat by omega) with hc | hc
            · exact lt_trans (hmono i _ h hmidlt hc) hltmid
            · subst hc
              exact hltmid
        · rw [if_neg hltmid]
          have hgt : t < (arr.get ⟨((lo + hi) / 2).toNat, hmidlt⟩).mile_est :=
            lt_of_le_of_ne (le_of_not_lt hltmid) (Ne.symm heq)
          refine ih lo ((lo + hi) / 2 - 1) h0 (by omega) (by omega) (by omega) hlow ?_
          intro i h hi2
          rcases lt_or_ge (hi : ℤ) (i : ℤ) with hcase | hcase
          · exact hhigh i h hcase
          · rcases lt_or_eq_of_le (show ((lo + hi) / 2).toNat ≤ i by omega) with hc | hc
            · exact lt_trans hgt (hmono _ i hmidlt h hc)
            · subst hc
              exact hgt
    · rw [if_neg hlohi]
      exact ⟨by omega, by omega, by omega, hlow, by
        intro i h hi2
        exact hhigh i h (by omega)⟩

theorem abs_sub_lt_side {x t : ℚ} (h : x < t) : |x - t| = t - x := by
  rw [abs_of_neg (by linarith), neg_sub]

theorem abs_sub_gt_side {x t : ℚ} (h : t < x) : |x - t| = x - t :=
  abs_of_pos (by linarith)

theorem pt_mile_inj (arr : List Pt)
    (hmono : ∀ (i j : ℕ) (hi : i < arr.length) (hj : j < arr.length), i < j →
      (arr.get ⟨i, hi⟩).mile_est < (arr.get ⟨j, hj⟩).mile_est)
    (p q : Pt) (hp : p ∈ arr) (hq : q ∈ arr) (h : p.mile_est = q.mile_est) : p = q := by
  obtain ⟨⟨i, hi⟩, rfl⟩ := List.mem_iff_get.mp hp
  obtain ⟨⟨j, hj⟩, rfl⟩ := List.mem_iff_get.mp hq
  rcases lt_trichotomy i j with hij | hij | hij
  · exact absurd h (ne_of_lt (hmono i j hi hj hij))
  · subst hij
    rfl
  · exact absurd h.symm (ne_of_lt (hmono j i hj hi hij))

/-- C5: over a non-empty strictly mile-sorted point list the lookup returns
the point minimising the absolute mile distance to the query, ties broken
toward the lower mile, an exact match returning that point; `none` is
returned exactly for the empty list. -/
theorem getNearestPointByMile_correct (arr : List Pt) (t : ℚ)
    (hs : arr.Pairwise fun p q => p.mile_est < q.mile_est) :
    (getNearestPointByMile arr t = none ↔ arr = [])
    ∧ (∀ p, getNearestPointByMile arr t = some p →
        p ∈ arr ∧ (∀ q ∈ arr, |p.mile_est - t| ≤ |q.mile_est - t|)
        ∧ (∀ q ∈ arr, |q.mile_est - t| = |p.mile_est - t| → p.mile_est ≤ q.mile_est))
    ∧ (∀ q ∈ arr, q.mile_est = t → getNearestPointByMile arr t = some q) := by
  have hmono : ∀ (i j : ℕ) (hi : i < arr.length) (hj : j < arr.length), i < j →
      (arr.get ⟨i, hi⟩).mile_est < (arr.get ⟨j, hj⟩).mile_est := by
    intro i j hi hj hij
    exact List.pairwise_iff_get.mp hs ⟨i, hi⟩ ⟨j, hj⟩ hij
  by_cases hempty : arr.length = 0
  · have harr : arr = [] := List.length_eq_zero.mp hempty
    subst harr
    exact ⟨by simp [getNearestPointByMile], by intro p hp; simp [getNearestPointByMile] at hp,
      by intro q hq; simp at hq⟩
  · have hn : 0 < arr.length := Nat.pos_of_ne_zero hempty
    have hne : arr ≠ [] := by
      intro h
      rw [h] at hn
      simp at hn
    have hloop := nearLoop_spec arr t hmono (arr.length + 1) 0 ((arr.length : ℤ) - 1)
      (by omega) (by omega) (by omega) (by omega)
      (by intro i h hi; exact absurd hi (by omega))
      (by intro i h hi; exact absurd (by omega : (i : ℤ) < (arr.length : ℤ)) (by omega))
    -- find the returned point together with its optimality facts
    have hmain : ∃ p, getNearestPointByMile arr t = some p ∧ p ∈ arr
        ∧ (∀ q ∈ arr, |p.mile_est - t| ≤ |q.mile_est - t|)
        ∧ (∀ q ∈ arr, |q.mile_est - t| = |p.mile_est - t| → p.mile_est ≤ q.mile_est) := by
      cases hres : nearLoop arr t (arr.length + 1) 0 ((arr.length : ℤ) - 1) with
      | inl p0 =>
        rw [hres] at hloop
        obtain ⟨hp0mem, hp0t⟩ := hloop
        refine ⟨p0, ?_, hp0mem, ?_, ?_⟩
        · rw [getNearestPointByMile, if_neg hempty, hres]
        · intro q hq
          rw [hp0t]
          simpa using abs_nonneg (q.mile_est - t)
        · intro q hq hqd
          rw [hp0t] at hqd ⊢
          have : |q.mile_est - t| = 0 := by simpa using hqd
          have : q.mile_est = t := by
            have := abs_eq_zero.mp this
            linarith
          linarith
      | inr lohi =>
        obtain ⟨lo', hi'⟩ := lohi
        rw [hres] at hloop
        obtain ⟨hhi', hlo0, hlon, hlow, hhigh⟩ := hloop
        subst hhi'
        have hgetm : getNearestPointByMile arr t
            = (match ptAt arr (clampIdx (arr.length : ℤ) (lo' - 1)),
                  ptAt arr (clampIdx (arr.length : ℤ) lo') with
               | none, b => b
               | some a, none => some a
               | some a, some b =>
                 if |a.mile_est - t| ≤ |b.mile_est - t| then some a else some b) := by
          rw [getNearestPointByMile, if_neg hempty, hres]
        rcases lt_trichotomy lo' 0 with hcase | hcase | hcase
        · omega
        · -- lo' = 0: every point lies above t; the candidates are both arr[0]
          subst hcase
          have hclampa : clampIdx (arr.length : ℤ) (0 - 1) = 0 := by
            simp only [clampIdx]
            omega
          have hclampb : clampIdx (arr.length : ℤ) 0 = 0 := by
            simp only [clampIdx]
            omega
          rw [hclampa, hclampb] at hgetm
          have h0lt : (0 : ℤ).toNat < arr.length := by omega
          rw [ptAt_eq_get arr 0 le_rfl h0lt] at hgetm
          set a := arr.get ⟨(0 : ℤ).toNat, h0lt⟩ with ha
          have hgt : ∀ (j : ℕ) (hj : j < arr.length), t < (arr.get ⟨j, hj⟩).mile_est := by
            intro j hj
            exact hhigh j hj (by omega)
          have hamin : ∀ (j : ℕ) (hj : j < arr.length),
              a.mile_est ≤ (arr.get ⟨j, hj⟩).mile_est := by
            intro j hj
            rcases Nat.eq_zero_or_pos j with hj0 | hj0
            · subst hj0
              exact le_refl _
            · exact le_of_lt (hmono 0 j h0lt hj hj0)
          refine ⟨a, ?_, List.get_mem arr _ _, ?_, ?_⟩
          · rw [hgetm]
            simp
          · intro q hq
            obtain ⟨⟨j, hj⟩, rfl⟩ := List.mem_iff_get.mp hq
            rw [abs_sub_gt_side (hgt _ h0lt), abs_sub_gt_side (hgt j hj)]
            have := hamin j hj
            linarith
          · intro q hq hqd
            obtain ⟨⟨j, hj⟩, rfl⟩ := List.mem_iff_get.mp hq
            rw [abs_sub_gt_side (hgt _ h0lt), abs_sub_gt_side (hgt j hj)] at hqd
            linarith
        · rcases lt_trichotomy lo' (arr.length : ℤ) with hcase2 | hcase2 | hcase2
          · -- 0 < lo' < n: candidates arr[lo'-1] (below t) and arr[lo'] (above t)
            have hclampa : clampIdx (arr.length : ℤ) (lo' - 1) = lo' - 1 := by
              simp only [clampIdx]
              omega
            have hclampb : clampIdx (arr.length : ℤ) lo' = lo' := by
              simp only [clampIdx]
              omega
            rw [hclampa, hclampb] at hgetm
            have halt : (lo' - 1).toNat < arr.length := by omega
            have hblt : lo'.toNat < arr.length := by omega
            rw [ptAt_eq_get arr (lo' - 1) (by omega) halt,
              ptAt_eq_get arr lo' (by omega) hblt] at hgetm
            set a := arr.get ⟨(lo' - 1).toNat, halt⟩ with ha
            set b := arr.get ⟨lo'.toNat, hblt⟩ with hb
            have halow : a.mile_est < t := hlow _ halt (by omega)
            have hbhigh : t < b.mile_est := hhigh _ hblt (by omega)
            have hbelow : ∀ (j : ℕ) (hj : j < arr.length), (j : ℤ) < lo' →
                (arr.get ⟨j, hj⟩).mile_est ≤ a.mile_est := by
              intro j hj hjlt
              rcases lt_or_eq_of_le (show j ≤ (lo' - 1).toNat by omega) with hc | hc
              · exact le_of_lt (hmono j _ hj halt hc)
              · subst hc
                exact le_refl _
            have habove : ∀ (j : ℕ) (hj : j < arr.length), lo' - 1 < (j : ℤ) →
                b.mile_est ≤ (arr.get ⟨j, hj⟩).mile_est := by
              intro j hj hjge
              rcases lt_or_eq_of_le (show lo'.toNat ≤ j by omega) with hc | hc
              · exact le_of_lt (hmono _ j hblt hj hc)
              · subst hc
                exact le_refl _
            by_cases hab : |a.mile_est - t| ≤ |b.mile_est - t|
            · refine ⟨a, ?_, List.get_mem arr _ _, ?_, ?_⟩
              · rw [hgetm]
                simp [hab]
              · intro q hq
                obtain ⟨⟨j, hj⟩, rfl⟩ := List.mem_iff_get.mp hq
                rcases lt_or_ge (j : ℤ) lo' with hj' | hj'
                · rw [abs_sub_lt_side halow, abs_sub_lt_side (hlow j hj hj')]
                  have := hbelow j hj hj'
                  linarith
                · have hq' : t < (arr.get ⟨j, hj⟩).mile_est := hhigh j hj (by omega)
                  calc |a.mile_est - t| ≤ |b.mile_est - t| := hab
                    _ ≤ |(arr.get ⟨j, hj⟩).mile_est - t| := by
                        rw [abs_sub_gt_side hbhigh, abs_sub_gt_side hq']
                        have := habove j hj (by omega)
                        linarith
              · intro q hq hqd
                obtain ⟨⟨j, hj⟩, rfl⟩ := List.mem_iff_get.mp hq
                rcases lt_or_ge (j : ℤ) lo' with hj' | hj'
                · rw [abs_sub_lt_side halow, abs_sub_lt_side (hlow j hj hj')] at hqd
                  linarith
                · have hq' : t < (arr.get ⟨j, hj⟩).mile_est := hhigh j hj (by omega)
                  linarith
            · refine ⟨b, ?_, List.get_mem arr _ _, ?_, ?_⟩
              · rw [hgetm]
                simp [hab]
              · intro q hq
                obtain ⟨⟨j, hj⟩, rfl⟩ := List.mem_iff_get.mp hq
                rcases lt_or_ge (j : ℤ) lo' with hj' | hj'
                · have h1 : |a.mile_est - t| ≤ |(arr.get ⟨j, hj⟩).mile_est - t| := by
                    rw [abs_sub_lt_side halow, abs_sub_lt_side (hlow j hj hj')]
                    have := hbelow j hj hj'
                    linarith
                  linarith [lt_of_not_le hab]
                · have hq' : t < (arr.get ⟨j, hj⟩).mile_est := hhigh j hj (by omega)
                  rw [abs_sub_gt_side hbhigh, abs_sub_gt_side hq']
                  have := habove j hj (by omega)
                  linarith
              · intro q hq hqd
                obtain ⟨⟨j, hj⟩, rfl⟩ := List.mem_iff_get.mp hq
                rcases lt_or_ge (j : ℤ) lo' with hj' | hj'
                · have h1 : |a.mile_est - t| ≤ |(arr.get ⟨j, hj⟩).mile_est - t| := by
                    rw [abs_sub_lt_side halow, abs_sub_lt_side (hlow j hj hj')]
                    have := hbelow j hj hj'
                    linarith
                  have := lt_of_not_le hab
                  linarith
                · have hq' : t < (arr.get ⟨j, hj⟩).mile_est := hhigh j hj (by omega)
                  rw [abs_sub_gt_side hbhigh, abs_sub_gt_side hq'] at hqd
                  linarith
          · -- lo' = n: every point lies below t; the candidates are both arr[n-1]
            have hclampa : clampIdx (arr.length : ℤ) (lo' - 1) = (arr.length : ℤ) - 1 := by
              simp only [clampIdx]
              omega
            have hclampb : clampIdx (arr.length : ℤ) lo' = (arr.length : ℤ) - 1 := by
              simp only [clampIdx]
              omega
            rw [hclampa, hclampb] at hgetm
            have hlastlt : ((arr.length : ℤ) - 1).toNat < arr.length := by omega
            rw [ptAt_eq_get arr _ (by omega) hlastlt] at hgetm
            set a := arr.get ⟨((arr.length : ℤ) - 1).toNat, hlastlt⟩ with ha
            have hltall : ∀ (j : ℕ) (hj : j < arr.length),
                (arr.get ⟨j, hj⟩).mile_est < t := by
              intro j hj
              exact hlow j hj (by omega)
            have hamax : ∀ (j : ℕ) (hj : j < arr.length),
                (arr.get ⟨j, hj⟩).mile_est ≤ a.mile_est := by
              intro j hj
              rcases lt_or_eq_of_le (show j ≤ ((arr.length : ℤ) - 1).toNat by omega)
                with hc | hc
              · exact le_of_lt (hmono j _ hj hlastlt hc)
              · subst hc
                exact le_refl _
            refine ⟨a, ?_, List.get_mem arr _ _, ?_, ?_⟩
            · rw [hgetm]
              simp
            · intro q hq
              obtain ⟨⟨j, hj⟩, rfl⟩ := List.mem_iff_get.mp hq
              rw [abs_sub_lt_side (hltall _ hlastlt), abs_sub_lt_side (hltall j hj)]
              have := hamax j hj
              linarith
            · intro q hq hqd
              obtain ⟨⟨j, hj⟩, rfl⟩ := List.mem_iff_get.mp hq
              rw [abs_sub_lt_side (hltall _ hlastlt), abs_sub_lt_side (hltall j hj)] at hqd
              linarith
          · omega
    obtain ⟨p, hp, hpmem, hpmin, hptie⟩ := hmain
    refine ⟨⟨(by rw [hp]; intro h; cases h), fun h => absurd h hne⟩, ?_, ?_⟩
    · intro p1 hp1
      rw [hp] at hp1
      cases hp1
      exact ⟨hpmem, hpmin, hptie⟩
    · intro q hq hqt
      have h0 : |p.mile_est - t| ≤ |q.mile_est - t| := hpmin q hq
      rw [hqt] at h0
      simp only [sub_self, abs_zero] at h0
      have hpt : p.mile_est = t := by
        have := abs_nonneg (p.mile_est - t)
        have habs0 : |p.mile_est - t| = 0 := le_antisymm h0 this
        have := abs_eq_zero.mp habs0
        linarith
      rw [hp]
      have : p = q := pt_mile_inj arr hmono p q hpmem hq (by rw [hpt, hqt])
      rw [this]

/-! ### Aggregator lemmas -/

theorem aggMissing_eq (points : List MPoint) (hist : List NRec) :
    aggMissing points hist
      = points.filter fun p => decide (p.id ∉ hist.map NRec.id) := by
  unfold aggMissing
  apply List.filter_congr
  intro p hp
  by_cases hmem : p.id ∈ hist.map NRec.id
  · simp [List.contains, List.elem_eq_mem, hmem]
  · simp [List.contains, List.elem_eq_mem, hmem]

theorem aggMissing_append (points : List MPoint) (hist w : List NRec) :
    aggMissing points (hist ++ w)
      = (aggMissing points hist).filter fun p => decide (p.id ∉ w.map NRec.id) := by
  rw [aggMissing_eq, aggMissing_eq, List.filter_filter]
  apply List.filter_congr
  intro p hp
  by_cases h1 : p.id ∈ hist.map NRec.id
  · by_cases h2 : p.id ∈ w.map NRec.id <;> simp [List.mem_append, h1, h2]
  · by_cases h2 : p.id ∈ w.map NRec.id <;> simp [List.mem_append, h1, h2]

theorem nodup_filter_take (M : List MPoint) (hnd : (M.map MPoint.id).Nodup) :
    ∀ k : ℕ, M.filter (fun p => decide (p.id ∉ (M.take k).map MPoint.id)) = M.drop k := by
  induction M with
  | nil => intro k; simp
  | cons p rest ih =>
    intro k
    match k with
    | 0 => simp
    | k + 1 =>
      simp only [List.take_succ_cons, List.map_cons, List.drop_succ_cons]
      have hpid : p.id ∈ p.id :: (rest.take k).map MPoint.id := List.mem_cons_self _ _
      rw [List.filter_cons]
      have hdrop : (decide (p.id ∉ p.id :: (rest.take k).map MPoint.id)) = false := by
        simp
      rw [hdrop]
      simp only [Bool.false_eq_true, if_false]
      rw [List.map_cons] at hnd
      obtain ⟨hni, hnd'⟩ := List.nodup_cons.mp hnd
      have hcong : ∀ x ∈ rest,
          (decide (x.id ∉ p.id :: (rest.take k).map MPoint.id))
            = (decide (x.id ∉ (rest.take k).map MPoint.id)) := by
        intro x hx
        have hxne : x.id ≠ p.id := by
          intro hxe
          exact hni (hxe ▸ List.mem_map_of_mem MPoint.id hx)
        simp [List.mem_cons, hxne]
      rw [List.filter_congr hcong]
      exact ih hnd' k

theorem processMissing_writes (dataOf : MPoint → DailySeries) :
    ∀ (l : List MPoint) (hist : List NRec) (k : ℕ),
      (∀ p ∈ l, (∃ q, p.lat = some q) ∧ (∃ q, p.lon = some q)
        ∧ (dataOf p).time.length ≠ 0) →
      processMissing (fun p => Except.ok (dataOf p)) k l hist
        = hist ++ (l.take k).map (fun p => recOf p (dataOf p)) := by
  intro l
  induction l with
  | nil => intro hist k hvalid; cases k <;> simp [processMissing]
  | cons p rest ih =>
    intro hist k hvalid
    obtain ⟨⟨qa, hlat⟩, ⟨qb, hlon⟩, hdata⟩ := hvalid p (List.mem_cons_self p rest)
    match k with
    | 0 => simp [processMissing]
    | k + 1 =>
      simp only [processMissing, hlat, hlon, if_neg hdata, List.take_succ_cons,
        List.map_cons]
      rw [ih (hist ++ [recOf p (dataOf p)]) k
        (fun x hx => hvalid x (List.mem_cons_of_mem p hx))]
      simp

/-- C6: the Normals Aggregator is resumable — a run interrupted after `k`
writes leaves the store holding exactly the old records plus the first `k`
missing records; the next run recomputes the missing set as exactly the
remaining points, and a full second run completes the rest while leaving
every already-written record untouched. -/
theorem aggregator_resumable (dataOf : MPoint → DailySeries) (points : List MPoint)
    (hist : List NRec) (k : ℕ)
    (hids : (points.map MPoint.id).Nodup)
    (hvalid : ∀ p ∈ points, (∃ q, p.lat = some q) ∧ (∃ q, p.lon = some q)
      ∧ (dataOf p).time.length ≠ 0) :
    aggRun (fun p => Except.ok (dataOf p)) k points hist
        = hist ++ ((aggMissing points hist).take k).map (fun p => recOf p (dataOf p))
    ∧ aggMissing points (aggRun (fun p => Except.ok (dataOf p)) k points hist)
        = (aggMissing points hist).drop k
    ∧ aggRun (fun p => Except.ok (dataOf p))
          ((aggMissing points hist).drop k).length points
          (aggRun (fun p => Except.ok (dataOf p)) k points hist)
        = hist ++ (aggMissing points hist).map (fun p => recOf p (dataOf p)) := by
  have hsub : ∀ p ∈ aggMissing points hist, p ∈ points := by
    intro p hp
    rw [aggMissing_eq] at hp
    exact List.mem_of_mem_filter hp
  have hmnd : ((aggMissing points hist).map MPoint.id).Nodup := by
    have hsl : List.Sublist (aggMissing points hist) points := by
      rw [aggMissing_eq]
      exact List.filter_sublist points
    exact List.Nodup.sublist (List.Sublist.map MPoint.id hsl) hids
  have h1 : aggRun (fun p => Except.ok (dataOf p)) k points hist
      = hist ++ ((aggMissing points hist).take k).map (fun p => recOf p (dataOf p)) := by
    rw [aggRun]
    exact processMissing_writes dataOf (aggMissing points hist) hist k
      (fun p hp => hvalid p (hsub p hp))
  have hwids : (((aggMissing points hist).take k).map
        (fun p => recOf p (dataOf p))).map NRec.id
      = ((aggMissing points hist).take k).map MPoint.id := by
    rw [List.map_map]
    rfl
  have h2 : aggMissing points (aggRun (fun p => Except.ok (dataOf p)) k points hist)
      = (aggMissing points hist).drop k := by
    rw [h1, aggMissing_append, hwids]
    -- reduce the outer filter over `points` to a filter over the missing list
    have : (aggMissing points hist).filter
        (fun p => decide (p.id ∉ ((aggMissing points hist).take k).map MPoint.id))
        = (aggMissing points hist).drop k := nodup_filter_take _ hmnd k
    exact this
  refine ⟨h1, h2, ?_⟩
  rw [aggRun, h2, h1]
  rw [processMissing_writes dataOf ((aggMissing points hist).drop k) _ _
    (fun p hp => hvalid p (hsub p (List.mem_of_mem_drop hp)))]
  rw [List.take_length, List.append_assoc, ← List.map_append, List.take_append_drop]

/-- Witness for C6: two missing points, interruption after one write. -/
theorem aggregator_resumable_witness :
    aggRun (fun _ => Except.ok egDaily) 1 egAggPoints []
        = [] ++ ((aggMissing egAggPoints []).take 1).map (fun p => recOf p egDaily)
    ∧ aggMissing egAggPoints (aggRun (fun _ => Except.ok egDaily) 1 egAggPoints [])
        = (aggMissing egAggPoints []).drop 1
    ∧ aggRun (fun _ => Except.ok egDaily) ((aggMissing egAggPoints []).drop 1).length
          egAggPoints (aggRun (fun _ => Except.ok egDaily) 1 egAggPoints [])
        = [] ++ (aggMissing egAggPoints []).map (fun p => recOf p egDaily) :=
  aggregator_resumable (fun _ => egDaily) egAggPoints [] 1 (by decide)
    (by
      intro p hp
      simp only [egAggPoints, List.mem_cons, List.mem_singleton] at hp
      rcases hp with rfl | rfl | h
      · exact ⟨⟨1, rfl⟩, ⟨1, rfl⟩, by decide⟩
      · exact ⟨⟨1, rfl⟩, ⟨1, rfl⟩, by decide⟩
      · simp at h)

/-! ### Retry-policy lemmas -/

theorem retryLoop_succ (responses : ℕ → Resp) (maxRetries : ℕ) (base maxD : ℚ)
    (fuel attempt : ℕ) :
    retryLoop responses maxRetries base maxD (fuel + 1) attempt
      = (let resp := responses attempt
         if resp.ok then (Except.ok resp, ([] : List ℚ))
         else if retryableStatus resp.status = false ∨ attempt = maxRetries then
           (Except.error ("HTTP " ++ natToString resp.status), [])
         else
           let d := delayFor base maxD attempt resp.retryAfter
           let r := retryLoop responses maxRetries base maxD fuel (attempt + 1)
           (r.1, d :: r.2)) := rfl

theorem delayFor_le_cap (base maxD : ℚ) (attempt : ℕ) (ra : Option ℚ) :
    delayFor base maxD attempt ra ≤ maxD :=
  min_le_right _ _

theorem delayFor_no_hint (base maxD : ℚ) (attempt : ℕ) :
    delayFor base maxD attempt none = min (base * 2 ^ attempt) maxD := by
  simp only [delayFor]
  split_ifs with h <;> rfl

theorem delayFor_hint (base maxD : ℚ) (attempt : ℕ) (q : ℚ) (hq : 0 < q) :
    delayFor base maxD attempt (some q) = min (q * 1000) maxD := by
  simp only [delayFor]
  rw [if_neg (by push_neg; positivity)]

theorem retryLoop_all_fail (responses : ℕ → Resp) (maxRetries : ℕ) (base maxD : ℚ) :
    ∀ (fuel attempt : ℕ), attempt + fuel = maxRetries + 1 → attempt ≤ maxRetries →
      (∀ i, attempt ≤ i → i ≤ maxRetries →
        (responses i).ok = false ∧ retryableStatus (responses i).status = true) →
      retryLoop responses maxRetries base maxD fuel attempt
        = (Except.error ("HTTP " ++ natToString (responses maxRetries).status),
           (List.range' attempt (maxRetries - attempt)).map
             (fun i => delayFor base maxD i (responses i).retryAfter)) := by
  intro fuel
  induction fuel with
  | zero => intro attempt hsum hle hall; omega
  | succ fuel ih =>
    intro attempt hsum hle hall
    obtain ⟨hok, hretry⟩ := hall attempt le_rfl hle
    rw [retryLoop_succ]
    simp only [hok, Bool.false_eq_true, if_false]
    by_cases hlast : attempt = maxRetries
    · subst hlast
      rw [if_pos (Or.inr rfl)]
      simp
    · rw [if_neg (by simp [hretry, hlast])]
      rw [ih (attempt + 1) (by omega) (by omega)
        (fun i hi1 hi2 => hall i (by omega) hi2)]
      have hrange : List.range' attempt (maxRetries - attempt)
          = attempt :: List.range' (attempt + 1) (maxRetries - (attempt + 1)) := by
        have h1 : maxRetries - attempt = (maxRetries - (attempt + 1)) + 1 := by omega
        rw [h1, List.range'_succ]
      rw [hrange]
      simp

theorem retryLoop_success (responses : ℕ → Resp) (maxRetries : ℕ) (base maxD : ℚ) :
    ∀ (fuel attempt k : ℕ), attempt + fuel = maxRetries + 1 → attempt ≤ k →
      k ≤ maxRetries →
      (∀ i, attempt ≤ i → i < k →
        (responses i).ok = false ∧ retryableStatus (responses i).status = true) →
      (responses k).ok = true →
      retryLoop responses maxRetries base maxD fuel attempt
        = (Except.ok (responses k),
           (List.range' attempt (k - attempt)).map
             (fun i => delayFor base maxD i (responses i).retryAfter)) := by
  intro fuel
  induction fuel with
  | zero => intro attempt k hsum hak hkm hall hok; omega
  | succ fuel ih =>
    intro attempt k hsum hak hkm hall hok
    rw [retryLoop_succ]
    rcases lt_or_eq_of_le hak with hlt | heq
    · obtain ⟨hfok, hretry⟩ := hall attempt le_rfl hlt
      simp only [hfok, Bool.false_eq_true, if_false]
      rw [if_neg (by simp [hretry]; omega)]
      rw [ih (attempt + 1) k (by omega) (by omega) hkm
        (fun i hi1 hi2 => hall i (by omega) hi2) hok]
      have hrange : List.range' attempt (k - attempt)
          = attempt :: List.range' (attempt + 1) (k - (attempt + 1)) := by
        have h1 : k - attempt = (k - (attempt + 1)) + 1 := by omega
        rw [h1, List.range'_succ]
      rw [hrange]
      simp
    · subst heq
      simp [hok]

/-- Counterexample for C7: in the active aggregator a rate-limit response
(HTTP 429) is not retried — the single fetch throws and the run aborts with
the store unchanged. -/
theorem aggregator_429_fatal_no_retry :
    fetchDailyMaxMin (⟨false, 429, none⟩, egDaily)
        = Except.error "HTTP 429 from Open-Meteo"
    ∧ aggRun (fun _ => fetchDailyMaxMin (⟨false, 429, none⟩, egDaily)) 5 egAggPoints []
        = [] := by
  have hs : natToString 429 = "429" :=
    (natToString_eval 429 [9, 2, 4] (by simp [natDigits]) (by decide)).trans (by decide)
  constructor
  · simp only [fetchDailyMaxMin, hs]
    rfl
  · simp [aggRun, aggMissing, List.contains, processMissing, egAggPoints, fetchDailyMaxMin]

/-- C7 (amended): the retry-with-backoff policy lives in the deprecated
`fetchWithRetry` — statuses 429/502/503 are retried with exponential backoff
capped at `maxDelayMs`, honoring a positive `Retry-After` hint, any other
non-2xx fails immediately, and exhausting the budget fails after
`maxRetries` delays — while the active aggregator's single-shot fetch turns
every non-OK response into a fatal error. -/
theorem retry_policy_spec :
    (∀ (r : Resp) (d : DailySeries), r.ok = false →
        fetchDailyMaxMin (r, d)
          = Except.error ("HTTP " ++ natToString r.status ++ " from Open-Meteo"))
    ∧ (∀ responses : ℕ → Resp, (responses 0).ok = false →
        retryableStatus (responses 0).status = false →
        fetchWithRetry responses
          = (Except.error ("HTTP " ++ natToString (responses 0).status), []))
    ∧ (∀ responses : ℕ → Resp,
        (∀ i, i ≤ FETCH_MAX_RETRIES →
          (responses i).ok = false ∧ retryableStatus (responses i).status = true) →
        fetchWithRetry responses
          = (Except.error ("HTTP " ++ natToString (responses FETCH_MAX_RETRIES).status),
             (List.range FETCH_MAX_RETRIES).map
               (fun i => delayFor FETCH_BASE_DELAY_MS FETCH_MAX_DELAY_MS i
                 (responses i).retryAfter)))
    ∧ (∀ (responses : ℕ → Resp) (k : ℕ), k ≤ FETCH_MAX_RETRIES →
        (∀ i, i < k →
          (responses i).ok = false ∧ retryableStatus (responses i).status = true) →
        (responses k).ok = true →
        fetchWithRetry responses
          = (Except.ok (responses k),
             (List.range k).map
               (fun i => delayFor FETCH_BASE_DELAY_MS FETCH_MAX_DELAY_MS i
                 (responses i).retryAfter)))
    ∧ (∀ (base maxD : ℚ) (attempt : ℕ) (ra : Option ℚ),
        delayFor base maxD attempt ra ≤ maxD
        ∧ delayFor base maxD attempt none = min (base * 2 ^ attempt) maxD
        ∧ ∀ q : ℚ, 0 < q →
            delayFor base maxD attempt (some q) = min (q * 1000) maxD) := by
  refine ⟨?_, ?_, ?_, ?_, ?_⟩
  · intro r d hok
    simp [fetchDailyMaxMin, hok]
  · intro responses h1 h2
    rw [fetchWithRetry, retryLoop_succ]
    simp only [h1, Bool.false_eq_true, if_false]
    rw [if_pos (Or.inl h2)]
  · intro responses hall
    rw [fetchWithRetry,
      retryLoop_all_fail responses FETCH_MAX_RETRIES _ _ (FETCH_MAX_RETRIES + 1) 0
        (by omega) (by omega) (fun i hi1 hi2 => hall i hi2)]
    rw [List.range_eq_range']
    simp
  · intro responses k hk hall hok
    rw [fetchWithRetry,
      retryLoop_success responses FETCH_MAX_RETRIES _ _ (FETCH_MAX_RETRIES + 1) 0 k
        (by omega) (by omega) hk (fun i hi1 hi2 => hall i hi2) hok]
    rw [List.range_eq_range']
    simp
  · intro base maxD attempt ra
    exact ⟨delayFor_le_cap base maxD attempt ra, delayFor_no_hint base maxD attempt,
      fun q hq => delayFor_hint base maxD attempt q hq⟩

/-- Witness for C7 (amended): every attempt answers 429 — the budget is
exhausted, the failure is fatal and exactly `maxRetries` delays were slept. -/
theorem retry_policy_spec_witness :
    fetchWithRetry (fun _ => ⟨false, 429, none⟩)
      = (Except.error ("HTTP " ++ natToString 429),
         (List.range FETCH_MAX_RETRIES).map
           (fun i => delayFor FETCH_BASE_DELAY_MS FETCH_MAX_DELAY_MS i none)) :=
  retry_policy_spec.2.2.1 (fun _ => ⟨false, 429, none⟩) (fun i hi => ⟨rfl, rfl⟩)

theorem updHot_spec (o : Option DayRec) (rec : DayRec) :
    ∃ m, updHot o rec = some m
      ∧ (m = rec ∨ o = some m)
      ∧ rec.avgHigh ≤ m.avgHigh
      ∧ (∀ x, o = some x → x.avgHigh ≤ m.avgHigh) := by
  cases o with
  | none =>
    exact ⟨rec, rfl, Or.inl rfl, le_rfl, by intro x hx; cases hx⟩
  | some h =>
    by_cases hgt : rec.avgHigh > h.avgHigh
    · refine ⟨rec, by simp [updHot, hgt], Or.inl rfl, le_rfl, ?_⟩
      intro x hx
      cases hx
      exact le_of_lt hgt
    · refine ⟨h, by simp [updHot, hgt], Or.inr rfl, le_of_not_lt hgt, ?_⟩
      intro x hx
      cases hx
      exact le_rfl

theorem updCold_spec (o : Option DayRec) (rec : DayRec) :
    ∃ m, updCold o rec = some m
      ∧ (m = rec ∨ o = some m)
      ∧ m.avgLow ≤ rec.avgLow
      ∧ (∀ x, o = some x → m.avgLow ≤ x.avgLow) := by
  cases o with
  | none =>
    exact ⟨rec, rfl, Or.inl rfl, le_rfl, by intro x hx; cases hx⟩
  | some c =>
    by_cases hlt : rec.avgLow < c.avgLow
    · refine ⟨rec, by simp [updCold, hlt], Or.inl rfl, le_rfl, ?_⟩
      intro x hx
      cases hx
      exact le_of_lt hlt
    · refine ⟨c, by simp [updCold, hlt], Or.inr rfl, le_of_not_lt hlt, ?_⟩
      intro x hx
      cases hx
      exact le_rfl

theorem foldHot_spec (f : ℕ → Option DayRec) :
    ∀ (days : List ℕ) (st : Option DayRec × Option DayRec),
      ((days.foldl (extStep f) st).1 = none ↔ st.1 = none ∧ days.filterMap f = [])
      ∧ (∀ h, (days.foldl (extStep f) st).1 = some h →
          (st.1 = some h ∨ h ∈ days.filterMap f)
          ∧ (∀ x, st.1 = some x → x.avgHigh ≤ h.avgHigh)
          ∧ (∀ r ∈ days.filterMap f, r.avgHigh ≤ h.avgHigh)) := by
  intro days
  induction days with
  | nil =>
    intro st
    simp only [List.foldl_nil, List.filterMap_nil]
    refine ⟨by simp, ?_⟩
    intro h hh
    refine ⟨Or.inl hh, ?_, by simp⟩
    intro x hx
    rw [hx] at hh
    cases hh
    exact le_rfl
  | cons i rest ih =>
    intro st
    cases hfi : f i with
    | none =>
      have hstep : extStep f st i = st := by simp [extStep, hfi]
      simp only [List.foldl_cons, List.filterMap_cons, hfi, hstep]
      exact ih st
    | some rec =>
      obtain ⟨m, hm, hmor, hrecm, hxm⟩ := updHot_spec st.1 rec
      have hstep : extStep f st i = (some m, updCold st.2 rec) := by
        simp [extStep, hfi, hm]
      simp only [List.foldl_cons, List.filterMap_cons, hfi, hstep]
      obtain ⟨hnone, hsome⟩ := ih (some m, updCold st.2 rec)
      constructor
      · rw [hnone]
        simp
      · intro h hh
        obtain ⟨hor, hbound, hrest⟩ := hsome h hh
        have hmh : m.avgHigh ≤ h.avgHigh := by
          rcases hor with hor | hor
          · rw [Option.some.inj hor]
          · exact hbound m rfl
        refine ⟨?_, ?_, ?_⟩
        · rcases hor with hor | hor
          · have hmh' : m = h := Option.some.inj hor
            rcases hmor with hm2 | hm2
            · exact Or.inr (by rw [← hmh', hm2]; exact List.mem_cons_self _ _)
            · exact Or.inl (by rw [hm2, hmh'])
          · exact Or.inr (List.mem_cons_of_mem _ hor)
        · intro x hx
          exact le_trans (hxm x hx) hmh
        · intro r hr
          rcases List.mem_cons.mp hr with hr | hr
          · subst hr
            exact le_trans hrecm hmh
          · exact hrest r hr

theorem foldCold_spec (f : ℕ → Option DayRec) :
    ∀ (days : List ℕ) (st : Option DayRec × Option DayRec),
      ((days.foldl (extStep f) st).2 = none ↔ st.2 = none ∧ days.filterMap f = [])
      ∧ (∀ c, (days.foldl (extStep f) st).2 = some c →
          (st.2 = some c ∨ c ∈ days.filterMap f)
          ∧ (∀ x, st.2 = some x → c.avgLow ≤ x.avgLow)
          ∧ (∀ r ∈ days.filterMap f, c.avgLow ≤ r.avgLow)) := by
  intro days
  induction days with
  | nil =>
    intro st
    simp only [List.foldl_nil, List.filterMap_nil]
    refine ⟨by simp, ?_⟩
    intro c hc
    refine ⟨Or.inl hc, ?_, by simp⟩
    intro x hx
    rw [hx] at hc
    cases hc
    exact le_rfl
  | cons i rest ih =>
    intro st
    cases hfi : f i with
    | none =>
      have hstep : extStep f st i = st := by simp [extStep, hfi]
      simp only [List.foldl_cons, List.filterMap_cons, hfi, hstep]
      exact ih st
    | some rec =>
      obtain ⟨m, hm, hmor, hrecm, hxm⟩ := updCold_spec st.2 rec
      have hstep : extStep f st i = (updHot st.1 rec, some m) := by
        simp [extStep, hfi, hm]
      simp only [List.foldl_cons, List.filterMap_cons, hfi, hstep]
      obtain ⟨hnone, hsome⟩ := ih (updHot st.1 rec, some m)
      constructor
      · rw [hnone]
        simp
      · intro c hc
        obtain ⟨hor, hbound, hrest⟩ := hsome c hc
        have hmc : c.avgLow ≤ m.avgLow := by
          rcases hor with hor | hor
          · rw [Option.some.inj hor]
          · exact hbound m rfl
        refine ⟨?_, ?_, ?_⟩
        · rcases hor with hor | hor
          · have hmc' : m = c := Option.some.inj hor
            rcases hmor with hm2 | hm2
            · exact Or.inr (by rw [← hmc', hm2]; exact List.mem_cons_self _ _)
            · exact Or.inl (by rw [hm2, hmc'])
          · exact Or.inr (List.mem_cons_of_mem _ hor)
        · intro x hx
          exact le_trans hmc (hxm x hx)
        · intro r hr
          rcases List.mem_cons.mp hr with hr | hr
          · subst hr
            exact le_trans hmc hrecm
          · exact hrest r hr

/-- C8: over a whole trip the evaluator tracks one day of maximum `hi` and
one day of minimum `lo` among the days that have data (a nearest point, a
normals record and non-null slot values); a trip in which every day lacks
data yields the empty "no extremes found" result instead of an error. -/
theorem extremes_evaluator_spec (arr : List Pt) (normals : List (String × NormEntry))
    (trailMin trailMax : ℚ) (sobo : Bool) (milesPerDay : ℚ) (durationDays : ℕ)
    (monthDayOf : ℕ → ℕ × ℕ) :
    ((computeDurationExtremes arr normals trailMin trailMax sobo milesPerDay
        durationDays monthDayOf).1 = none
      ↔ (List.range durationDays).filterMap
          (dayEval arr normals trailMin trailMax sobo milesPerDay monthDayOf) = [])
    ∧ ((computeDurationExtremes arr normals trailMin trailMax sobo milesPerDay
        durationDays monthDayOf).2 = none
      ↔ (List.range durationDays).filterMap
          (dayEval arr normals trailMin trailMax sobo milesPerDay monthDayOf) = [])
    ∧ (∀ h, (computeDurationExtremes arr normals trailMin trailMax sobo milesPerDay
          durationDays monthDayOf).1 = some h →
        h ∈ (List.range durationDays).filterMap
            (dayEval arr normals trailMin trailMax sobo milesPerDay monthDayOf)
        ∧ ∀ r ∈ (List.range durationDays).filterMap
            (dayEval arr normals trailMin trailMax sobo milesPerDay monthDayOf),
            r.avgHigh ≤ h.avgHigh)
    ∧ (∀ c, (computeDurationExtremes arr normals trailMin trailMax sobo milesPerDay
          durationDays monthDayOf).2 = some c →
        c ∈ (List.range durationDays).filterMap
            (dayEval arr normals trailMin trailMax sobo milesPerDay monthDayOf)
        ∧ ∀ r ∈ (List.range durationDays).filterMap
            (dayEval arr normals trailMin trailMax sobo milesPerDay monthDayOf),
            c.avgLow ≤ r.avgLow) := by
  obtain ⟨hhn, hhs⟩ := foldHot_spec
    (dayEval arr normals trailMin trailMax sobo milesPerDay monthDayOf)
    (List.range durationDays) (none, none)
  obtain ⟨hcn, hcs⟩ := foldCold_spec
    (dayEval arr normals trailMin trailMax sobo milesPerDay monthDayOf)
    (List.range durationDays) (none, none)
  refine ⟨by simpa using hhn, by simpa using hcn, ?_, ?_⟩
  · intro h hh
    obtain ⟨hor, -, hrest⟩ := hhs h hh
    rcases hor with hor | hor
    · cases hor
    · exact ⟨hor, hrest⟩
  · intro c hc
    obtain ⟨hor, -, hrest⟩ := hcs c hc
    rcases hor with hor | hor
    · cases hor
    · exact ⟨hor, hrest⟩

/-- Witness for C8: a one-day trip over a single point whose normals entry
holds `hi = 78`, `lo = 52`; the evaluator reports that day for both
extremes. -/
theorem extremes_evaluator_spec_witness :
    (⟨0, 0, ⟨"p", 0⟩, 78, 52⟩ : DayRec)
        ∈ (List.range 1).filterMap
            (dayEval [⟨"p", 0⟩] [("p", ⟨[some 78], [some 52]⟩)] 0 0 false 0
              (fun _ => (1, 1)))
      ∧ ∀ r ∈ (List.range 1).filterMap
            (dayEval [⟨"p", 0⟩] [("p", ⟨[some 78], [some 52]⟩)] 0 0 false 0
              (fun _ => (1, 1))),
          r.avgHigh ≤ (⟨0, 0, ⟨"p", 0⟩, 78, 52⟩ : DayRec).avgHigh := by
  have heval : computeDurationExtremes [⟨"p", 0⟩] [("p", ⟨[some 78], [some 52]⟩)] 0 0
      false 0 1 (fun _ => (1, 1))
      = (some ⟨0, 0, ⟨"p", 0⟩, 78, 52⟩, some ⟨0, 0, ⟨"p", 0⟩, 78, 52⟩) := by
    norm_num [computeDurationExtremes, extStep, dayEval, getNearestPointByMile, nearLoop,
      ptAt, clampIdx, jsMapGet, dayIndexInNonLeapYearFromMonthDay, dayIndexFromMMDD,
      monthLens, updHot, updCold, List.range_succ]
  exact (extremes_evaluator_spec [⟨"p", 0⟩] [("p", ⟨[some 78], [some 52]⟩)] 0 0 false 0 1
    (fun _ => (1, 1))).2.2.1 ⟨0, 0, ⟨"p", 0⟩, 78, 52⟩ (by rw [heval])

/-- Witness for C5: the lookup theorem applied to the spec's example point
set with query mile 14. -/
theorem getNearestPointByMile_correct_witness :
    (getNearestPointByMile egLookupArr 14 = none ↔ egLookupArr = [])
    ∧ (∀ p, getNearestPointByMile egLookupArr 14 = some p →
        p ∈ egLookupArr
        ∧ (∀ q ∈ egLookupArr, |p.mile_est - 14| ≤ |q.mile_est - 14|)
        ∧ (∀ q ∈ egLookupArr,
            |q.mile_est - 14| = |p.mile_est - 14| → p.mile_est ≤ q.mile_est))
    ∧ (∀ q ∈ egLookupArr, q.mile_est = 14 →
        getNearestPointByMile egLookupArr 14 = some q) :=
  getNearestPointByMile_correct egLookupArr 14
    (by norm_num [egLookupArr, List.pairwise_cons])

/-- C9: the Migration Engine resolves the authoritative mile preferring the
explicit `mile` field, falling back to `mile_est`, and fails for the record
exactly when neither field holds a (finite) number; the normalizer resolves
the same mile. -/
theorem mile_resolution_prefers_mile_then_est (p : MPoint) :
    (∀ q, p.mile = some q → mileFromPoint p = Except.ok q)
    ∧ (∀ q, p.mile = none → p.mile_est = some q → mileFromPoint p = Except.ok q)
    ∧ ((∃ e, mileFromPoint p = Except.error e) ↔ p.mile = none ∧ p.mile_est = none)
    ∧ (∀ q, mileFromPoint p = Except.ok q →
        normalizePoint p = Except.ok { p with mile := some q, mile_est := none }) := by
  refine ⟨?_, ?_, ⟨?_, ?_⟩, ?_⟩
  · intro q hq
    simp [mileFromPoint, hq]
  · intro q hm hq
    simp [mileFromPoint, hm, hq]
  · rintro ⟨e, he⟩
    cases hm : p.mile with
    | some q => simp [mileFromPoint, hm] at he
    | none =>
      cases hest : p.mile_est with
      | some q => simp [mileFromPoint, hm, hest] at he
      | none => exact ⟨rfl, rfl⟩
  · rintro ⟨hm, hest⟩
    refine ⟨"Point id=" ++ p.id ++ " is missing numeric mile/mile_est", ?_⟩
    simp [mileFromPoint, hm, hest]
  · intro q hq
    cases hm : p.mile with
    | some q' =>
      simp only [mileFromPoint, hm] at hq
      cases hq
      simp [normalizePoint, hm]
    | none =>
      cases hest : p.mile_est with
      | some q' =>
        simp only [mileFromPoint, hm, hest] at hq
        cases hq
        simp [normalizePoint, hm, hest]
      | none => simp [mileFromPoint, hm, hest] at hq

/-- Witness for C9: a point with only `mile_est` resolves to it; a point with
both fields prefers `mile`. -/
theorem mile_resolution_prefers_mile_then_est_witness :
    mileFromPoint { id := "GA_1", mile_est := some 31 } = Except.ok 31
    ∧ mileFromPoint { id := "GA_2", mile := some 5, mile_est := some 31 } = Except.ok 5 :=
  ⟨(mile_resolution_prefers_mile_then_est { id := "GA_1", mile_est := some 31 }).2.1 31 rfl rfl,
   (mile_resolution_prefers_mile_then_est
      { id := "GA_2", mile := some 5, mile_est := some 31 }).1 5 rfl⟩
